import Mathlib

/-!
Shallow embedding of the "ramjam" sparse demand-paged block store
(src/block_driver/blk_modern.c and src/block_driver/blk_bio.c).

The page table is the C global `ramjam_dev.pages`, an array of
`ramjam_pages` page pointers; we model it as a total function from page
index to an optional page content.  A page's content is a byte function
on intra-page indices (indices `≥ PAGE_SIZE` model the memory that a
`memcpy` past the end of the kmapped page would touch).  `alloc_page`
may fail; we model the environment by an oracle `allocOk : Nat → Bool`
telling whether allocating the unit for a given page index succeeds.
Machine-integer truncation (`uint32_t pos`, `uint32_t pg_idx`) is kept
explicit with `% 2^32` / `% 2^64`.
-/

namespace Ramjam

def PAGE_SHIFT : Nat := 12
def PAGE_SIZE : Nat := 4096
def SECTOR_SHIFT : Nat := 9
def U32 : Nat := 2 ^ 32
def U64 : Nat := 2 ^ 64

abbrev Byte := Nat
abbrev PageData := Nat → Byte

/-- The device state: the sparse page table `ramjam_dev.pages`. -/
structure RamjamState where
  pages : Nat → Option PageData

/-- Embeds `vcalloc` in `ramjam_init`: every entry starts NULL. -/
def initState : RamjamState := ⟨fun _ => none⟩

inductive Dir | read | write
deriving DecidableEq

/-- Value of the C expression `rq_data_dir(rq) == WRITE` /
`bio_data_dir(bio) == WRITE`. -/
def isWrite : Dir → Bool
  | Dir.read => false
  | Dir.write => true

/-- One `bio_vec` segment: buffer-page offset, length, and (for writes)
the bytes sitting in the buffer. -/
structure Bvec where
  bv_offset : Nat
  bv_len : Nat
  data : List Byte

inductive BlkStatus | ok | ioerr
deriving DecidableEq

/-- Embeds `alloc_page(GFP_KERNEL | __GFP_ZERO)`: a fresh unit is zero-filled. -/
def zeroPage : PageData := fun _ => 0

/-- Embeds `memcpy(vaddr + off, data, len)` into a page's bytes. -/
def memcpyIn (pg : PageData) (off : Nat) (data : List Byte) : PageData :=
  fun i => if off ≤ i ∧ i < off + data.length then data.getD (i - off) 0 else pg i

/-- Embeds `memcpy(dst, vaddr + off, len)` out of a page's bytes. -/
def readBytes (pg : PageData) (off len : Nat) : List Byte :=
  (List.range len).map fun i => pg (off + i)

/-- Store a unit pointer into the page table: `pages[p] = pg`. -/
def setPage (s : RamjamState) (p : Nat) (pg : PageData) : RamjamState :=
  ⟨fun q => if q = p then some pg else s.pages q⟩

/-- Embeds `ramjam_get_page` (blk_modern.c:45-53): bounds check, then demand
allocation of a zeroed page when `allocate` holds; on allocation
failure the entry stays NULL and NULL is returned. -/
def ramjam_get_page (cap : Nat) (allocOk : Nat → Bool) (s : RamjamState)
    (pgoff : Nat) (allocate : Bool) : RamjamState × Option PageData :=
  if pgoff ≥ cap then (s, none)
  else
    match s.pages pgoff with
    | some pg => (s, some pg)
    | none =>
      if allocate then
        if allocOk pgoff then (setPage s pgoff zeroPage, some zeroPage)
        else (s, none)
      else (s, none)

/-- Segment loop of `ramjam_queue_rq` (blk_modern.c:71-90).
`pos` is the C `uint32_t` byte position; the device page index is
computed from `pos + bvec.bv_offset` and the intra-page offset from
`pos % PAGE_SIZE`, exactly as the source does. -/
def queue_rq_go (cap : Nat) (allocOk : Nat → Bool) (dir : Dir) :
    Nat → List Bvec → RamjamState → RamjamState × List (List Byte)
  | _, [], s => (s, [])
  | pos, bvec :: rest, s =>
    let pgoff := ((pos + bvec.bv_offset) % U32) >>> PAGE_SHIFT
    let res := ramjam_get_page cap allocOk s pgoff (isWrite dir)
    match res.2, dir with
    | some pg, Dir.write =>
      let s2 := setPage res.1 pgoff (memcpyIn pg (pos % PAGE_SIZE) bvec.data)
      let r := queue_rq_go cap allocOk dir ((pos + bvec.bv_len) % U32) rest s2
      (r.1, [] :: r.2)
    | some pg, Dir.read =>
      let out := readBytes pg (pos % PAGE_SIZE) bvec.bv_len
      let r := queue_rq_go cap allocOk dir ((pos + bvec.bv_len) % U32) rest res.1
      (r.1, out :: r.2)
    | none, Dir.read =>
      let r := queue_rq_go cap allocOk dir ((pos + bvec.bv_len) % U32) rest res.1
      (r.1, List.replicate bvec.bv_len 0 :: r.2)
    | none, Dir.write =>
      let r := queue_rq_go cap allocOk dir ((pos + bvec.bv_len) % U32) rest res.1
      (r.1, [] :: r.2)

/-- Embeds `ramjam_queue_rq` (blk_modern.c:60-95): translate the start sector
to a `uint32_t` byte position, process every segment, and complete the
request with `BLK_STS_OK` unconditionally. -/
def ramjam_queue_rq (cap : Nat) (allocOk : Nat → Bool) (dir : Dir)
    (sector : Nat) (segs : List Bvec) (s : RamjamState) :
    RamjamState × List (List Byte) × BlkStatus :=
  let pos := (sector <<< SECTOR_SHIFT) % U32
  let r := queue_rq_go cap allocOk dir pos segs s
  (r.1, r.2, BlkStatus.ok)

/-- Segment loop of `ramjam_submit_bio` (blk_bio.c:45-72).
`pg_idx` is a `uint32_t` computed from the 64-bit sector; the intra-page
offset used for the data copy is the segment's *buffer* offset
`bvec.bv_offset % PAGE_SIZE`, exactly as the source does. -/
def submit_bio_go (cap : Nat) (allocOk : Nat → Bool) (dir : Dir) :
    Nat → List Bvec → RamjamState → RamjamState × List (List Byte)
  | _, [], s => (s, [])
  | sector, bvec :: rest, s =>
    let pg_idx := (((sector <<< SECTOR_SHIFT) % U64) >>> PAGE_SHIFT) % U32
    let page0 : Option PageData := if pg_idx < cap then s.pages pg_idx else none
    let sector' := (sector + (bvec.bv_len >>> SECTOR_SHIFT)) % U64
    match page0, dir with
    | none, Dir.write =>
      if pg_idx < cap then
        if allocOk pg_idx then
          let s2 := setPage s pg_idx (memcpyIn zeroPage (bvec.bv_offset % PAGE_SIZE) bvec.data)
          let r := submit_bio_go cap allocOk dir sector' rest s2
          (r.1, [] :: r.2)
        else
          let r := submit_bio_go cap allocOk dir sector' rest s
          (r.1, [] :: r.2)
      else
        let r := submit_bio_go cap allocOk dir sector' rest s
        (r.1, [] :: r.2)
    | none, Dir.read =>
      let r := submit_bio_go cap allocOk dir sector' rest s
      (r.1, List.replicate bvec.bv_len 0 :: r.2)
    | some pg, Dir.write =>
      let s2 := setPage s pg_idx (memcpyIn pg (bvec.bv_offset % PAGE_SIZE) bvec.data)
      let r := submit_bio_go cap allocOk dir sector' rest s2
      (r.1, [] :: r.2)
    | some pg, Dir.read =>
      let out := readBytes pg (bvec.bv_offset % PAGE_SIZE) bvec.bv_len
      let r := submit_bio_go cap allocOk dir sector' rest s
      (r.1, out :: r.2)

/-- Embeds `ramjam_submit_bio` (blk_bio.c:37-75): process the segments and
signal completion via `bio_endio` (always success). -/
def ramjam_submit_bio (cap : Nat) (allocOk : Nat → Bool) (dir : Dir)
    (sector : Nat) (segs : List Bvec) (s : RamjamState) :
    RamjamState × List (List Byte) :=
  submit_bio_go cap allocOk dir sector segs s

inductive VmFaultResult
  | mapped (pg : PageData)
  | sigbus
  | oom

/-- Embeds `ramjam_vma_fault` (blk_modern.c:103-119): fetch-or-allocate via
`ramjam_get_page(pgoff, true)`; any NULL result — out-of-range index or
failed allocation alike — becomes `VM_FAULT_SIGBUS`. -/
def ramjam_vma_fault (cap : Nat) (allocOk : Nat → Bool) (s : RamjamState)
    (pgoff : Nat) : RamjamState × VmFaultResult :=
  let res := ramjam_get_page cap allocOk s pgoff true
  match res.2 with
  | none => (res.1, VmFaultResult.sigbus)
  | some pg => (res.1, VmFaultResult.mapped pg)

/-- Embeds `ramjam_vm_fault` (blk_bio.c:85-111): bounds check (`uint32_t`
index) before touching the table → SIGBUS; demand allocation with a
distinct `VM_FAULT_OOM` on allocation failure. -/
def ramjam_vm_fault (cap : Nat) (allocOk : Nat → Bool) (s : RamjamState)
    (pgoff : Nat) : RamjamState × VmFaultResult :=
  let pg_idx := pgoff % U32
  if pg_idx ≥ cap then (s, VmFaultResult.sigbus)
  else
    match s.pages pg_idx with
    | some pg => (s, VmFaultResult.mapped pg)
    | none =>
      if allocOk pg_idx then (setPage s pg_idx zeroPage, VmFaultResult.mapped zeroPage)
      else (s, VmFaultResult.oom)

/-- Embeds `rramjam_mmap` (blk_bio.c:117-129): validate the requested byte
range against the capacity at establishment time (`-EINVAL` = -22 on
overflow); touches no page-table state. -/
def rramjam_mmap (cap : Nat) (vm_start vm_end vm_pgoff : Nat)
    (s : RamjamState) : RamjamState × Int :=
  let size := vm_end - vm_start
  if ((vm_pgoff <<< PAGE_SHIFT) % U64 + size) % U64 > cap <<< PAGE_SHIFT
  then (s, -22)
  else (s, 0)

/-- Embeds `ramjam_mmap` (blk_modern.c:124-128): installs the fault handler
and returns 0 unconditionally — no validation, no allocation. -/
def ramjam_mmap (vm_start vm_end vm_pgoff : Nat)
    (s : RamjamState) : RamjamState × Int :=
  (s, 0)

/-- Logical content of the device at absolute byte position `q`:
the byte of the allocated page covering `q`, or 0 for an unallocated
page. -/
def deviceByte (s : RamjamState) (q : Nat) : Byte :=
  match s.pages (q / PAGE_SIZE) with
  | some pg => pg (q % PAGE_SIZE)
  | none => 0

/-- Canonical segment lists: every segment has buffer offset 0 and no
segment crosses a page boundary of the device range it covers. -/
def wellFormedB : Nat → List Bvec → Bool
  | _, [] => true
  | pos, b :: rest =>
    (b.bv_offset == 0) && decide (pos % PAGE_SIZE + b.bv_len ≤ PAGE_SIZE)
      && wellFormedB (pos + b.bv_len) rest

/-- Total byte length of a segment list. -/
def totalLen (segs : List Bvec) : Nat :=
  (segs.map Bvec.bv_len).sum

/-- Each write segment carries exactly `bv_len` bytes of data. -/
def goodData (segs : List Bvec) : Bool :=
  segs.all fun b => b.data.length == b.bv_len

/-- The device page indices the `ramjam_queue_rq` loop resolves,
in order. -/
def queue_rq_pgoffs : Nat → List Bvec → List Nat
  | _, [] => []
  | pos, b :: rest =>
    ((pos + b.bv_offset) % U32) >>> PAGE_SHIFT
      :: queue_rq_pgoffs ((pos + b.bv_len) % U32) rest

/-- The device page indices the `ramjam_submit_bio` loop resolves,
in order. -/
def submit_bio_pgidxs : Nat → List Bvec → List Nat
  | _, [] => []
  | sector, b :: rest =>
    (((sector <<< SECTOR_SHIFT) % U64) >>> PAGE_SHIFT) % U32
      :: submit_bio_pgidxs ((sector + (b.bv_len >>> SECTOR_SHIFT)) % U64) rest

/-- One driver entry point, for stating whole-lifetime invariants. -/
inductive Op
  | queueRq (dir : Dir) (sector : Nat) (segs : List Bvec)
  | submitBio (dir : Dir) (sector : Nat) (segs : List Bvec)
  | vmaFault (pgoff : Nat)
  | vmFault (pgoff : Nat)

/-- State effect of one entry-point invocation. -/
def stepOp (cap : Nat) (allocOk : Nat → Bool) (s : RamjamState) : Op → RamjamState
  | Op.queueRq d sec segs => (ramjam_queue_rq cap allocOk d sec segs s).1
  | Op.submitBio d sec segs => (ramjam_submit_bio cap allocOk d sec segs s).1
  | Op.vmaFault p => (ramjam_vma_fault cap allocOk s p).1
  | Op.vmFault p => (ramjam_vm_fault cap allocOk s p).1

/-- Run a sequence of entry-point invocations. -/
def runOps (cap : Nat) (allocOk : Nat → Bool) : List Op → RamjamState → RamjamState
  | [], s => s
  | op :: rest, s => runOps cap allocOk rest (stepOp cap allocOk s op)

/-- Number of allocated page-table entries. -/
def countAllocated (cap : Nat) (s : RamjamState) : Nat :=
  ((List.range cap).filter fun p => (s.pages p).isSome).length

/-- The convenient all-successful allocator. -/
def allocAll : Nat → Bool := fun _ => true

/-- Concatenated payload of a write request's segments. -/
def writtenBytes (segs : List Bvec) : List Byte :=
  (segs.map Bvec.data).flatten

/-- Expected per-segment outputs of a canonical read at byte position
`pos` of state `s`. -/
def expectedReads (s : RamjamState) : Nat → List Bvec → List (List Byte)
  | _, [] => []
  | pos, b :: rest =>
    ((List.range b.bv_len).map fun i => deviceByte s (pos + i))
      :: expectedReads s (pos + b.bv_len) rest

/-- Two states agree on every page-table slot below the capacity. -/
def AgreeBelow (cap : Nat) (s t : RamjamState) : Prop :=
  ∀ p, p < cap → s.pages p = t.pages p

/-! ## Basic facts about the page-table primitive -/

theorem totalLen_cons (b : Bvec) (rest : List Bvec) :
    totalLen (b :: rest) = b.bv_len + totalLen rest := by
  simp [totalLen]

theorem get_page_oob (cap : Nat) (allocOk : Nat → Bool) (s : RamjamState)
    (pgoff : Nat) (al : Bool) (h : cap ≤ pgoff) :
    ramjam_get_page cap allocOk s pgoff al = (s, none) := by
  simp [ramjam_get_page, ge_iff_le, h]

theorem get_page_read (cap : Nat) (allocOk : Nat → Bool) (s : RamjamState)
    (pgoff : Nat) :
    ramjam_get_page cap allocOk s pgoff false
      = (s, if pgoff < cap then s.pages pgoff else none) := by
  rcases Nat.lt_or_ge pgoff cap with h | h
  · cases hpg : s.pages pgoff <;>
      simp [ramjam_get_page, Nat.not_le.mpr h, h, hpg]
  · simp [ramjam_get_page, ge_iff_le, h, Nat.not_lt.mpr h]

theorem get_page_some (cap : Nat) (allocOk : Nat → Bool) (s : RamjamState)
    (pgoff : Nat) (al : Bool) (pg : PageData)
    (h : pgoff < cap) (hpg : s.pages pgoff = some pg) :
    ramjam_get_page cap allocOk s pgoff al = (s, some pg) := by
  simp [ramjam_get_page, Nat.not_le.mpr h, hpg]

theorem get_page_alloc (cap : Nat) (allocOk : Nat → Bool) (s : RamjamState)
    (pgoff : Nat) (h : pgoff < cap) (hpg : s.pages pgoff = none)
    (hok : allocOk pgoff = true) :
    ramjam_get_page cap allocOk s pgoff true
      = (setPage s pgoff zeroPage, some zeroPage) := by
  simp [ramjam_get_page, Nat.not_le.mpr h, hpg, hok]

theorem get_page_alloc_fail (cap : Nat) (allocOk : Nat → Bool) (s : RamjamState)
    (pgoff : Nat) (hpg : s.pages pgoff = none) (hok : allocOk pgoff = false) :
    ramjam_get_page cap allocOk s pgoff true = (s, none) := by
  rcases Nat.lt_or_ge pgoff cap with h | h
  · simp [ramjam_get_page, Nat.not_le.mpr h, hpg, hok]
  · simp [ramjam_get_page, ge_iff_le, h]

theorem get_page_fst_read (cap : Nat) (allocOk : Nat → Bool) (s : RamjamState)
    (pgoff : Nat) :
    (ramjam_get_page cap allocOk s pgoff false).1 = s := by
  rw [get_page_read]

/-! ## The read path never mutates the table -/

theorem queue_rq_go_read_fst (cap : Nat) (allocOk : Nat → Bool) :
    ∀ (segs : List Bvec) (pos : Nat) (s : RamjamState),
      (queue_rq_go cap allocOk Dir.read pos segs s).1 = s
  | [], _, _ => rfl
  | b :: rest, pos, s => by
    have hgp := get_page_read cap allocOk s (((pos + b.bv_offset) % U32) >>> PAGE_SHIFT)
    by_cases h : ((pos + b.bv_offset) % U32) >>> PAGE_SHIFT < cap
    · cases hpg : s.pages (((pos + b.bv_offset) % U32) >>> PAGE_SHIFT) <;>
        simp [queue_rq_go, isWrite, hgp, h, hpg, queue_rq_go_read_fst cap allocOk rest]
    · simp [queue_rq_go, isWrite, hgp, h, queue_rq_go_read_fst cap allocOk rest]

theorem submit_bio_go_read_fst (cap : Nat) (allocOk : Nat → Bool) :
    ∀ (segs : List Bvec) (sector : Nat) (s : RamjamState),
      (submit_bio_go cap allocOk Dir.read sector segs s).1 = s
  | [], _, _ => rfl
  | b :: rest, sector, s => by
    by_cases h : (((sector <<< SECTOR_SHIFT) % U64) >>> PAGE_SHIFT) % U32 < cap
    · cases hpg : s.pages ((((sector <<< SECTOR_SHIFT) % U64) >>> PAGE_SHIFT) % U32) <;>
        simp [submit_bio_go, h, hpg, submit_bio_go_read_fst cap allocOk rest]
    · simp [submit_bio_go, h, submit_bio_go_read_fst cap allocOk rest]

/-- C9 — Block-path reads never allocate: a read transfer submitted
through either block front-end (`ramjam_queue_rq` or
`ramjam_submit_bio`) leaves the page table exactly as it was; the
`allocate` argument passed to `ramjam_get_page` on the read path is
`false`, and unallocated entries are zero-filled without any table
mutation. -/
theorem C9_reads_never_allocate (cap : Nat) (allocOk : Nat → Bool)
    (sector bsector : Nat) (segs bsegs : List Bvec) (s : RamjamState) :
    (ramjam_queue_rq cap allocOk Dir.read sector segs s).1 = s
    ∧ (ramjam_submit_bio cap allocOk Dir.read bsector bsegs s).1 = s
    ∧ isWrite Dir.read = false := by
  refine ⟨?_, ?_, rfl⟩
  · exact queue_rq_go_read_fst cap allocOk segs _ s
  · exact submit_bio_go_read_fst cap allocOk bsegs _ s

/-! ## Zero-fill of never-written ranges -/

theorem queue_rq_go_read_unalloc (cap : Nat) (allocOk : Nat → Bool) :
    ∀ (segs : List Bvec) (pos : Nat) (s : RamjamState),
      (∀ p ∈ queue_rq_pgoffs pos segs, s.pages p = none) →
      queue_rq_go cap allocOk Dir.read pos segs s
        = (s, segs.map fun b => List.replicate b.bv_len 0)
  | [], _, _, _ => rfl
  | b :: rest, pos, s, h => by
    have hhd : s.pages (((pos + b.bv_offset) % U32) >>> PAGE_SHIFT) = none :=
      h _ (by simp [queue_rq_pgoffs])
    have htl : ∀ p ∈ queue_rq_pgoffs ((pos + b.bv_len) % U32) rest, s.pages p = none := by
      intro p hp
      exact h p (by simp [queue_rq_pgoffs, hp])
    have hgp := get_page_read cap allocOk s (((pos + b.bv_offset) % U32) >>> PAGE_SHIFT)
    have ih := queue_rq_go_read_unalloc cap allocOk rest ((pos + b.bv_len) % U32) s htl
    by_cases hc : ((pos + b.bv_offset) % U32) >>> PAGE_SHIFT < cap <;>
      simp [queue_rq_go, isWrite, hgp, hc, hhd, ih]

theorem submit_bio_go_read_unalloc (cap : Nat) (allocOk : Nat → Bool) :
    ∀ (segs : List Bvec) (sector : Nat) (s : RamjamState),
      (∀ p ∈ submit_bio_pgidxs sector segs, s.pages p = none) →
      submit_bio_go cap allocOk Dir.read sector segs s
        = (s, segs.map fun b => List.replicate b.bv_len 0)
  | [], _, _, _ => rfl
  | b :: rest, sector, s, h => by
    have hhd : s.pages ((((sector <<< SECTOR_SHIFT) % U64) >>> PAGE_SHIFT) % U32) = none :=
      h _ (by simp [submit_bio_pgidxs])
    have htl : ∀ p ∈ submit_bio_pgidxs ((sector + (b.bv_len >>> SECTOR_SHIFT)) % U64) rest,
        s.pages p = none := by
      intro p hp
      exact h p (by simp [submit_bio_pgidxs, hp])
    have ih := submit_bio_go_read_unalloc cap allocOk rest
      ((sector + (b.bv_len >>> SECTOR_SHIFT)) % U64) s htl
    by_cases hc : (((sector <<< SECTOR_SHIFT) % U64) >>> PAGE_SHIFT) % U32 < cap <;>
      simp [submit_bio_go, hc, hhd, ih]

/-- C2 — Zero-fill: a block front-end read (through either the blk-mq
request path or the bio path) whose segments all resolve to
never-written (unallocated) page-table entries returns all-zero bytes
for every segment, synthesized into the caller's buffer without
touching the table; and a freshly allocated unit handed out by
`ramjam_get_page` always starts zero-filled. -/
theorem C2_zero_fill (cap : Nat) (allocOk : Nat → Bool) (sector bsector : Nat)
    (segs bsegs : List Bvec) (s : RamjamState)
    (hq : ∀ p ∈ queue_rq_pgoffs ((sector <<< SECTOR_SHIFT) % U32) segs, s.pages p = none)
    (hb : ∀ p ∈ submit_bio_pgidxs bsector bsegs, s.pages p = none) :
    ramjam_queue_rq cap allocOk Dir.read sector segs s
        = (s, (segs.map fun b => List.replicate b.bv_len 0), BlkStatus.ok)
    ∧ ramjam_submit_bio cap allocOk Dir.read bsector bsegs s
        = (s, bsegs.map fun b => List.replicate b.bv_len 0)
    ∧ ∀ p pg, s.pages p = none →
        (ramjam_get_page cap allocOk s p true).2 = some pg → pg = zeroPage := by
  refine ⟨?_, ?_, ?_⟩
  · have h1 := queue_rq_go_read_unalloc cap allocOk segs ((sector <<< SECTOR_SHIFT) % U32) s hq
    simp [ramjam_queue_rq, h1]
  · exact submit_bio_go_read_unalloc cap allocOk bsegs _ s hb
  · intro p pg hnone hsome
    rcases Nat.lt_or_ge p cap with hlt | hge
    · rcases hok : allocOk p with h | h
      · rw [get_page_alloc_fail cap allocOk s p hnone hok] at hsome
        simp at hsome
      · rw [get_page_alloc cap allocOk s p hlt hnone hok] at hsome
        simpa using hsome.symm
    · rw [get_page_oob cap allocOk s p true hge] at hsome
      simp at hsome

/-- Witness for C2 at a concrete instance. -/
theorem C2_zero_fill_witness :
    (∀ p ∈ queue_rq_pgoffs ((0 <<< SECTOR_SHIFT) % U32) [⟨0, 3, []⟩],
        initState.pages p = none)
    ∧ (∀ p ∈ submit_bio_pgidxs 0 [⟨0, 512, []⟩], initState.pages p = none)
    ∧ ramjam_queue_rq 4 allocAll Dir.read 0 [⟨0, 3, []⟩] initState
        = (initState, [List.replicate 3 0], BlkStatus.ok) :=
  ⟨fun _ _ => rfl, fun _ _ => rfl,
    ((C2_zero_fill 4 allocAll 0 0 [⟨0, 3, []⟩] [⟨0, 512, []⟩] initState
      (fun _ _ => rfl) (fun _ _ => rfl)).1).trans (by simp)⟩

/-! ## Out-of-range transfers -/

theorem queue_rq_go_oob_fst (cap : Nat) (allocOk : Nat → Bool) (dir : Dir) :
    ∀ (segs : List Bvec) (pos : Nat) (s : RamjamState),
      (∀ p ∈ queue_rq_pgoffs pos segs, cap ≤ p) →
      (queue_rq_go cap allocOk dir pos segs s).1 = s
  | [], _, _, _ => rfl
  | b :: rest, pos, s, h => by
    have hhd : cap ≤ ((pos + b.bv_offset) % U32) >>> PAGE_SHIFT :=
      h _ (by simp [queue_rq_pgoffs])
    have htl : ∀ p ∈ queue_rq_pgoffs ((pos + b.bv_len) % U32) rest, cap ≤ p := by
      intro p hp
      exact h p (by simp [queue_rq_pgoffs, hp])
    have hgp := get_page_oob cap allocOk s (((pos + b.bv_offset) % U32) >>> PAGE_SHIFT)
      (isWrite dir) hhd
    have ih := queue_rq_go_oob_fst cap allocOk dir rest ((pos + b.bv_len) % U32) s htl
    cases dir <;> simp [queue_rq_go, hgp, ih]

/-- C3 counterexample — the block front-end does not reject
out-of-range transfers: with 4 pages (capacity 16384 bytes), a 512-byte
write at byte offset 16384 (sector 32) completes with `BLK_STS_OK`
instead of an `OutOfRange` error; no allocation happens, but no
rejection is reported either. -/
theorem C3_counterexample :
    (ramjam_queue_rq 4 allocAll Dir.write 32
        [⟨0, 512, List.replicate 512 7⟩] initState).2.2 = BlkStatus.ok
    ∧ (ramjam_queue_rq 4 allocAll Dir.write 32
        [⟨0, 512, List.replicate 512 7⟩] initState).1.pages 4 = none
    ∧ BlkStatus.ok ≠ BlkStatus.ioerr := by
  refine ⟨rfl, rfl, by decide⟩

/-- C3 amended — an out-of-range transfer is detected per page by the
bounds check in `ramjam_get_page`, which prevents any page-table
mutation or allocation: a request all of whose segments resolve to
page indices `≥ capacity_pages` leaves the table untouched. But the
request is not rejected: it completes with success status
(`BLK_STS_OK`), out-of-range writes being silently discarded. -/
theorem C3_boundary_amended (cap : Nat) (allocOk : Nat → Bool) (dir : Dir)
    (sector : Nat) (segs : List Bvec) (s : RamjamState)
    (h : ∀ p ∈ queue_rq_pgoffs ((sector <<< SECTOR_SHIFT) % U32) segs, cap ≤ p) :
    (ramjam_queue_rq cap allocOk dir sector segs s).1 = s
    ∧ (ramjam_queue_rq cap allocOk dir sector segs s).2.2 = BlkStatus.ok := by
  exact ⟨queue_rq_go_oob_fst cap allocOk dir segs _ s h, rfl⟩

/-- Witness for C3 amended at a concrete instance. -/
theorem C3_boundary_amended_witness :
    (∀ p ∈ queue_rq_pgoffs ((32 <<< SECTOR_SHIFT) % U32) [⟨0, 512, List.replicate 512 7⟩],
        4 ≤ p)
    ∧ (ramjam_queue_rq 4 allocAll Dir.write 32
        [⟨0, 512, List.replicate 512 7⟩] initState).1 = initState :=
  ⟨by decide,
    (C3_boundary_amended 4 allocAll Dir.write 32 [⟨0, 512, List.replicate 512 7⟩]
      initState (by decide)).1⟩

/-! ## Allocation failure on the write path -/

theorem queue_rq_go_allocFail (cap : Nat) (allocOk : Nat → Bool) (dir : Dir) :
    ∀ (segs : List Bvec) (pos : Nat) (s : RamjamState) (p : Nat),
      s.pages p = none → allocOk p = false →
      (queue_rq_go cap allocOk dir pos segs s).1.pages p = none
  | [], _, _, _, hnone, _ => hnone
  | b :: rest, pos, s, p, hnone, hfail => by
    set pgoff := ((pos + b.bv_offset) % U32) >>> PAGE_SHIFT with hpgoff
    have ih := queue_rq_go_allocFail cap allocOk dir rest ((pos + b.bv_len) % U32)
    rcases hres : ramjam_get_page cap allocOk s pgoff (isWrite dir) with ⟨s1, page?⟩
    have hs1 : s1.pages p = none := by
      rcases Nat.lt_or_ge pgoff cap with hlt | hge
      · cases hpg : s.pages pgoff with
        | some q =>
          rw [get_page_some cap allocOk s pgoff _ q hlt hpg] at hres
          cases hres; exact hnone
        | none =>
          cases hal : isWrite dir with
          | false =>
            rw [hal, get_page_read] at hres
            cases hres; exact hnone
          | true =>
            rw [hal] at hres
            cases hok : allocOk pgoff with
            | false =>
              rw [get_page_alloc_fail cap allocOk s pgoff hpg hok] at hres
              cases hres; exact hnone
            | true =>
              rw [get_page_alloc cap allocOk s pgoff hlt hpg hok] at hres
              cases hres
              have hne : p ≠ pgoff := by
                intro he; rw [he, hok] at hfail; cases hfail
              simp [setPage, hne, hnone]
      · rw [get_page_oob cap allocOk s pgoff _ hge] at hres
        cases hres; exact hnone
    have hsome_lt : ∀ q, page? = some q → pgoff ≠ p := by
      intro q hq he
      rcases Nat.lt_or_ge pgoff cap with hlt | hge
      · cases hpg : s.pages pgoff with
        | some u => rw [he, hnone] at hpg; cases hpg
        | none =>
          cases hal : isWrite dir with
          | false =>
            rw [hal, get_page_read] at hres
            cases hres
            rw [if_pos hlt, hpg] at hq
            cases hq
          | true =>
            rw [hal] at hres
            cases hok : allocOk pgoff with
            | false =>
              rw [get_page_alloc_fail cap allocOk s pgoff hpg hok] at hres
              cases hres; cases hq
            | true => rw [he, hfail] at hok; cases hok
      · rw [get_page_oob cap allocOk s pgoff _ hge] at hres
        cases hres; cases hq
    cases page? with
    | none =>
      cases dir <;> simp [queue_rq_go, hres, ih _ _ hs1 hfail]
    | some pg =>
      have hne := hsome_lt pg rfl
      cases dir with
      | read => simp [queue_rq_go, hres, ih _ _ hs1 hfail]
      | write =>
        have hne' : p ≠ pgoff := fun he => hne he.symm
        have hs2 : (setPage s1 pgoff (memcpyIn pg (pos % PAGE_SIZE) b.data)).pages p = none := by
          simp [setPage, hne', hs1]
        simp [queue_rq_go, hres, ih _ _ hs2 hfail]

set_option maxRecDepth 10000 in
/-- C5 counterexample — allocation failure does not abort the transfer
and is not reported.  With 8 pages and an allocator that fails only for
page 3, a write request at sector 23 whose three 512-byte segments
resolve (by the code's own `(pos + bv_offset) >> PAGE_SHIFT` formula)
to pages 2, 3 and 4 completes with `BLK_STS_OK` (no failure and no
transferred-byte count are reported), and the segment after the failed
page is still written: page 2 holds its new data (byte value 11),
page 3 stays unallocated and reads back as zero, and page 4 was
allocated and written (byte value 33). -/
theorem C5_counterexample :
    (ramjam_queue_rq 8 (fun p => p != 3) Dir.write 23
        [⟨0, 512, List.replicate 512 11⟩, ⟨0, 512, List.replicate 512 22⟩,
         ⟨3584, 512, List.replicate 512 33⟩] initState).2.2 = BlkStatus.ok
    ∧ (ramjam_queue_rq 8 (fun p => p != 3) Dir.write 23
        [⟨0, 512, List.replicate 512 11⟩, ⟨0, 512, List.replicate 512 22⟩,
         ⟨3584, 512, List.replicate 512 33⟩] initState).1.pages 3 = none
    ∧ ((ramjam_queue_rq 8 (fun p => p != 3) Dir.write 23
        [⟨0, 512, List.replicate 512 11⟩, ⟨0, 512, List.replicate 512 22⟩,
         ⟨3584, 512, List.replicate 512 33⟩] initState).1.pages 4).isSome = true
    ∧ deviceByte (ramjam_queue_rq 8 (fun p => p != 3) Dir.write 23
        [⟨0, 512, List.replicate 512 11⟩, ⟨0, 512, List.replicate 512 22⟩,
         ⟨3584, 512, List.replicate 512 33⟩] initState).1 (2 * 4096 + 3584) = 11
    ∧ deviceByte (ramjam_queue_rq 8 (fun p => p != 3) Dir.write 23
        [⟨0, 512, List.replicate 512 11⟩, ⟨0, 512, List.replicate 512 22⟩,
         ⟨3584, 512, List.replicate 512 33⟩] initState).1 (3 * 4096) = 0
    ∧ deviceByte (ramjam_queue_rq 8 (fun p => p != 3) Dir.write 23
        [⟨0, 512, List.replicate 512 11⟩, ⟨0, 512, List.replicate 512 22⟩,
         ⟨3584, 512, List.replicate 512 33⟩] initState).1 (4 * 4096 + 512) = 33 := by
  refine ⟨rfl, rfl, rfl, rfl, rfl, rfl⟩

/-- C5 amended — if a unit allocation fails during a write transfer,
the front-end skips the failed page and continues with the remainder
of the transfer; the request still completes with success status
(`BLK_STS_OK`), reporting neither the failure nor a transferred-byte
count; the page whose allocation failed remains unallocated and every
byte of it reads back as zero. -/
theorem C5_alloc_failure (cap : Nat) (allocOk : Nat → Bool) (dir : Dir)
    (sector : Nat) (segs : List Bvec) (s : RamjamState) :
    (ramjam_queue_rq cap allocOk dir sector segs s).2.2 = BlkStatus.ok
    ∧ ∀ p, s.pages p = none → allocOk p = false →
        (ramjam_queue_rq cap allocOk dir sector segs s).1.pages p = none
        ∧ ∀ i, i < PAGE_SIZE →
            deviceByte (ramjam_queue_rq cap allocOk dir sector segs s).1
              (p * PAGE_SIZE + i) = 0 := by
  refine ⟨rfl, fun p hnone hfail => ?_⟩
  have hmain := queue_rq_go_allocFail cap allocOk dir segs
    ((sector <<< SECTOR_SHIFT) % U32) s p hnone hfail
  refine ⟨hmain, fun i hi => ?_⟩
  have hdiv : (p * PAGE_SIZE + i) / PAGE_SIZE = p := by
    unfold PAGE_SIZE at *
    omega
  unfold deviceByte
  rw [hdiv]
  rw [show (ramjam_queue_rq cap allocOk dir sector segs s).1
      = (queue_rq_go cap allocOk dir ((sector <<< SECTOR_SHIFT) % U32) segs s).1 from rfl]
  rw [hmain]

/-- Witness for C5 amended at a concrete instance. -/
theorem C5_alloc_failure_witness :
    initState.pages 3 = none
    ∧ (fun p => p != 3) 3 = false
    ∧ (ramjam_queue_rq 8 (fun p => p != 3) Dir.write 16
        [⟨0, 16, List.replicate 16 11⟩] initState).1.pages 3 = none :=
  ⟨rfl, rfl,
    (((C5_alloc_failure 8 (fun p => p != 3) Dir.write 16
      [⟨0, 16, List.replicate 16 11⟩] initState).2) 3 rfl rfl).1⟩

/-! ## Mapping-fault error taxonomy -/

/-- C6 counterexample — in the modern driver the two fault-failure
causes are not distinct: with a 4-page table and an allocator that
always fails, `ramjam_vma_fault` returns `VM_FAULT_SIGBUS` both for an
in-range page whose allocation fails (page 0) and for an out-of-range
page (page 9); allocation failure is not surfaced as a distinct
NoMemory error. -/
theorem C6_counterexample :
    (ramjam_vma_fault 4 (fun _ => false) initState 0).2 = VmFaultResult.sigbus
    ∧ (ramjam_vma_fault 4 (fun _ => false) initState 9).2 = VmFaultResult.sigbus := by
  exact ⟨rfl, rfl⟩

/-- C6 amended — the bio driver's `ramjam_vm_fault` distinguishes the
two causes: an index beyond the capacity fails with `VM_FAULT_SIGBUS`
(before any table access) and an in-range fault whose allocation fails
returns the distinct `VM_FAULT_OOM`; the modern driver's
`ramjam_vma_fault` collapses both causes into `VM_FAULT_SIGBUS`.  In
every failure case the page table is left untouched, so the store and
all other mappings remain usable. -/
theorem C6_fault_taxonomy (cap : Nat) (allocOk : Nat → Bool) (s : RamjamState)
    (pgoff : Nat) :
    (cap ≤ pgoff % U32 →
        ramjam_vm_fault cap allocOk s pgoff = (s, VmFaultResult.sigbus))
    ∧ (pgoff % U32 < cap → s.pages (pgoff % U32) = none →
        allocOk (pgoff % U32) = false →
        ramjam_vm_fault cap allocOk s pgoff = (s, VmFaultResult.oom))
    ∧ (cap ≤ pgoff →
        ramjam_vma_fault cap allocOk s pgoff = (s, VmFaultResult.sigbus))
    ∧ (pgoff < cap → s.pages pgoff = none → allocOk pgoff = false →
        ramjam_vma_fault cap allocOk s pgoff = (s, VmFaultResult.sigbus)) := by
  refine ⟨?_, ?_, ?_, ?_⟩
  · intro h
    simp [ramjam_vm_fault, ge_iff_le, h]
  · intro h hnone hfail
    simp [ramjam_vm_fault, ge_iff_le, Nat.not_le.mpr h, hnone, hfail]
  · intro h
    simp [ramjam_vma_fault, get_page_oob cap allocOk s pgoff true h]
  · intro h hnone hfail
    simp [ramjam_vma_fault, get_page_alloc_fail cap allocOk s pgoff hnone hfail]

/-- Witness for C6 amended at concrete instances. -/
theorem C6_fault_taxonomy_witness :
    (4 ≤ 9 % U32
      ∧ ramjam_vm_fault 4 (fun _ => false) initState 9 = (initState, VmFaultResult.sigbus))
    ∧ (0 % U32 < 4 ∧ initState.pages (0 % U32) = none ∧ (fun _ => false) (0 % U32) = false
      ∧ ramjam_vm_fault 4 (fun _ => false) initState 0 = (initState, VmFaultResult.oom)) :=
  ⟨⟨by decide, (C6_fault_taxonomy 4 (fun _ => false) initState 9).1 (by decide)⟩,
   ⟨by decide, rfl, rfl,
    (C6_fault_taxonomy 4 (fun _ => false) initState 0).2.1 (by decide) rfl rfl⟩⟩

/-! ## Mapping establishment -/

/-- C7 counterexample — the modern driver's `ramjam_mmap` performs no
establishment-time validation at all: it accepts a mapping request at
page offset 100 of a 4-page store (far beyond capacity), returning 0
(success) instead of rejecting the out-of-range mapping, and only the
first fault on such a page fails (with SIGBUS). -/
theorem C7_counterexample :
    ramjam_mmap 0 4096 100 initState = (initState, 0)
    ∧ (ramjam_vma_fault 4 allocAll initState 100).2 = VmFaultResult.sigbus
    ∧ (0 : Int) ≠ -22 := by
  refine ⟨rfl, rfl, by decide⟩

/-- C7 amended — only the bio driver's `rramjam_mmap` validates the
requested byte range against capacity at establishment time, rejecting
an out-of-range request with `-EINVAL` and accepting an in-range one;
in both cases it touches no page-table state (nothing is allocated or
populated eagerly).  The modern driver's `ramjam_mmap` accepts every
request without validation, deferring rejection of an out-of-range
page to the first fault, which fails with SIGBUS and also allocates
nothing. -/
theorem C7_mmap_validation (cap : Nat) (allocOk : Nat → Bool)
    (vm_start vm_end vm_pgoff : Nat) (s : RamjamState) :
    (((vm_pgoff <<< PAGE_SHIFT) % U64 + (vm_end - vm_start)) % U64 > cap <<< PAGE_SHIFT →
        rramjam_mmap cap vm_start vm_end vm_pgoff s = (s, -22))
    ∧ (((vm_pgoff <<< PAGE_SHIFT) % U64 + (vm_end - vm_start)) % U64 ≤ cap <<< PAGE_SHIFT →
        rramjam_mmap cap vm_start vm_end vm_pgoff s = (s, 0))
    ∧ ramjam_mmap vm_start vm_end vm_pgoff s = (s, 0)
    ∧ (∀ p, cap ≤ p → ramjam_vma_fault cap allocOk s p = (s, VmFaultResult.sigbus)) := by
  refine ⟨?_, ?_, rfl, ?_⟩
  · intro h
    rw [Nat.mod_add_mod] at h
    simp [rramjam_mmap, h]
  · intro h
    rw [Nat.mod_add_mod] at h
    simp [rramjam_mmap, Nat.not_lt.mpr h]
  · intro p hp
    simp [ramjam_vma_fault, get_page_oob cap allocOk s p true hp]

/-- Witness for C7 amended at concrete instances. -/
theorem C7_mmap_validation_witness :
    (((100 <<< PAGE_SHIFT) % U64 + (4096 - 0)) % U64 > 4 <<< PAGE_SHIFT
      ∧ rramjam_mmap 4 0 4096 100 initState = (initState, -22))
    ∧ (((0 <<< PAGE_SHIFT) % U64 + (4096 - 0)) % U64 ≤ 4 <<< PAGE_SHIFT
      ∧ rramjam_mmap 4 0 4096 0 initState = (initState, 0)) :=
  ⟨⟨by decide, (C7_mmap_validation 4 allocAll 0 4096 100 initState).1 (by decide)⟩,
   ⟨by decide, (C7_mmap_validation 4 allocAll 0 4096 0 initState).2.1 (by decide)⟩⟩

/-! ## Arithmetic helpers for canonical requests -/

theorem shiftRight_PAGE (n : Nat) : n >>> PAGE_SHIFT = n / PAGE_SIZE := by
  rw [Nat.shiftRight_eq_div_pow]
  norm_num [PAGE_SHIFT, PAGE_SIZE]

theorem shiftLeft_SECTOR (n : Nat) : n <<< SECTOR_SHIFT = n * 512 := by
  rw [Nat.shiftLeft_eq]
  norm_num [SECTOR_SHIFT]

theorem addr_div_eq (pos i : Nat) (h : pos % PAGE_SIZE + i < PAGE_SIZE) :
    (pos + i) / PAGE_SIZE = pos / PAGE_SIZE := by
  have e : PAGE_SIZE = 4096 := rfl
  rw [e] at h ⊢
  omega

theorem addr_mod_eq (pos i : Nat) (h : pos % PAGE_SIZE + i < PAGE_SIZE) :
    (pos + i) % PAGE_SIZE = pos % PAGE_SIZE + i := by
  have e : PAGE_SIZE = 4096 := rfl
  rw [e] at h ⊢
  omega

theorem deviceByte_setPage (s : RamjamState) (p : Nat) (pg : PageData) (q : Nat) :
    deviceByte (setPage s p pg) q
      = if q / PAGE_SIZE = p then pg (q % PAGE_SIZE) else deviceByte s q := by
  by_cases h : q / PAGE_SIZE = p <;> simp [deviceByte, setPage, h]

theorem wellFormedB_cons (pos : Nat) (b : Bvec) (rest : List Bvec)
    (h : wellFormedB pos (b :: rest) = true) :
    b.bv_offset = 0 ∧ pos % PAGE_SIZE + b.bv_len ≤ PAGE_SIZE
      ∧ wellFormedB (pos + b.bv_len) rest = true := by
  have h' := h
  simp [wellFormedB, Bool.and_eq_true, beq_iff_eq, decide_eq_true_eq] at h'
  exact ⟨h'.1.1, h'.1.2, h'.2⟩

theorem goodData_cons (b : Bvec) (rest : List Bvec)
    (h : goodData (b :: rest) = true) :
    b.data.length = b.bv_len ∧ goodData rest = true := by
  simpa [goodData, List.all_cons, beq_iff_eq] using h

theorem writtenBytes_cons (b : Bvec) (rest : List Bvec) :
    writtenBytes (b :: rest) = b.data ++ writtenBytes rest := by
  simp [writtenBytes]

theorem writtenBytes_length :
    ∀ segs : List Bvec, goodData segs = true → (writtenBytes segs).length = totalLen segs
  | [], _ => rfl
  | b :: rest, h => by
    obtain ⟨h1, h2⟩ := goodData_cons b rest h
    rw [writtenBytes_cons, List.length_append, h1, writtenBytes_length rest h2,
      totalLen_cons]

theorem map_getD_range (l : List Byte) :
    ((List.range l.length).map fun i => l.getD i 0) = l := by
  apply List.ext_getElem
  · simp
  · intro n hn hn'
    have hn2 : n < l.length := by simpa using hn
    simp [List.getD_eq_getElem?_getD, List.getElem?_eq_getElem hn2]

theorem expectedReads_flatten (s : RamjamState) :
    ∀ (segs : List Bvec) (pos : Nat),
      (expectedReads s pos segs).flatten
        = (List.range (totalLen segs)).map fun i => deviceByte s (pos + i)
  | [], _ => by simp [expectedReads, totalLen]
  | b :: rest, pos => by
    rw [expectedReads, totalLen_cons, List.range_add, List.map_append]
    simp only [List.flatten_cons]
    congr 1
    rw [expectedReads_flatten s rest (pos + b.bv_len), List.map_map]
    apply List.map_congr_left
    intro i _
    simp [Nat.add_assoc]

/-! ## Canonical reads return the device content -/

theorem queue_rq_go_read_canonical (cap : Nat) (allocOk : Nat → Bool) :
    ∀ (segs : List Bvec) (pos : Nat) (s : RamjamState),
      wellFormedB pos segs = true →
      pos + totalLen segs ≤ cap * PAGE_SIZE →
      cap * PAGE_SIZE < U32 →
      queue_rq_go cap allocOk Dir.read pos segs s = (s, expectedReads s pos segs)
  | [], _, _, _, _, _ => rfl
  | b :: rest, pos, s, hwf, hbound, hcap => by
    obtain ⟨hb0, hcross, hwfr⟩ := wellFormedB_cons pos b rest hwf
    have htot := totalLen_cons b rest
    have hposU : pos < U32 := by omega
    have hpos_mod : (pos + b.bv_offset) % U32 = pos := by
      rw [hb0, Nat.add_zero, Nat.mod_eq_of_lt hposU]
    have hlen_mod : (pos + b.bv_len) % U32 = pos + b.bv_len :=
      Nat.mod_eq_of_lt (by omega)
    have hboundr : pos + b.bv_len + totalLen rest ≤ cap * PAGE_SIZE := by omega
    have ih := queue_rq_go_read_canonical cap allocOk rest (pos + b.bv_len) s hwfr
      hboundr hcap
    have hps : (0 : Nat) < PAGE_SIZE := by norm_num [PAGE_SIZE]
    rcases Nat.lt_or_ge (pos / PAGE_SIZE) cap with hq | hq
    · cases hpg : s.pages (pos / PAGE_SIZE) with
      | some pg =>
        have hgp : ramjam_get_page cap allocOk s (((pos + b.bv_offset) % U32) >>> PAGE_SHIFT)
            (isWrite Dir.read) = (s, some pg) := by
          rw [hpos_mod, shiftRight_PAGE]
          exact get_page_some cap allocOk s _ _ pg hq hpg
        have hout : readBytes pg (pos % PAGE_SIZE) b.bv_len
            = (List.range b.bv_len).map fun i => deviceByte s (pos + i) := by
          unfold readBytes
          apply List.map_congr_left
          intro i hi
          have hi' : i < b.bv_len := List.mem_range.mp hi
          have hfit : pos % PAGE_SIZE + i < PAGE_SIZE := by omega
          have h1 := addr_div_eq pos i hfit
          have h2 := addr_mod_eq pos i hfit
          simp [deviceByte, h1, h2, hpg]
        simp [queue_rq_go, hgp, hlen_mod, ih, expectedReads, hout]
      | none =>
        have hgp : ramjam_get_page cap allocOk s (((pos + b.bv_offset) % U32) >>> PAGE_SHIFT)
            (isWrite Dir.read) = (s, none) := by
          rw [hpos_mod, shiftRight_PAGE]
          rw [show isWrite Dir.read = false from rfl, get_page_read, if_pos hq, hpg]
        have hout : ((List.range b.bv_len).map fun i => deviceByte s (pos + i))
            = List.replicate b.bv_len 0 := by
          rw [List.eq_replicate_iff]
          refine ⟨by simp, ?_⟩
          intro x hx
          rcases List.mem_map.mp hx with ⟨i, hi, rfl⟩
          have hi' : i < b.bv_len := List.mem_range.mp hi
          have hfit : pos % PAGE_SIZE + i < PAGE_SIZE := by omega
          have h1 := addr_div_eq pos i hfit
          simp [deviceByte, h1, hpg]
        simp [queue_rq_go, hgp, hlen_mod, ih, expectedReads, hout]
    · -- the degenerate tail at exactly the capacity boundary
      have hpos_eq : pos = cap * PAGE_SIZE ∧ b.bv_len = 0 := by
        have : cap * PAGE_SIZE ≤ pos := by
          have := (Nat.le_div_iff_mul_le hps).mp hq
          omega
        omega
      obtain ⟨hpe, hb_len⟩ := hpos_eq
      have hgp : ramjam_get_page cap allocOk s (((pos + b.bv_offset) % U32) >>> PAGE_SHIFT)
          (isWrite Dir.read) = (s, none) := by
        rw [hpos_mod, shiftRight_PAGE]
        exact get_page_oob cap allocOk s _ _ hq
      rw [hb_len] at ih
      simp only [Nat.add_zero] at ih
      simp [queue_rq_go, hgp, hb_len, Nat.mod_eq_of_lt hposU, ih, expectedReads]

/-! ## Canonical writes update the device content -/

theorem queue_rq_go_write_deviceByte (cap : Nat) (allocOk : Nat → Bool) :
    ∀ (segs : List Bvec) (pos : Nat) (s : RamjamState),
      wellFormedB pos segs = true →
      goodData segs = true →
      pos + totalLen segs ≤ cap * PAGE_SIZE →
      cap * PAGE_SIZE < U32 →
      (∀ p, p < cap → allocOk p = true) →
      ∀ q, deviceByte (queue_rq_go cap allocOk Dir.write pos segs s).1 q
        = if pos ≤ q ∧ q < pos + totalLen segs
          then (writtenBytes segs).getD (q - pos) 0
          else deviceByte s q
  | [], pos, s, _, _, _, _, _, q => by
    have htot : totalLen ([] : List Bvec) = 0 := rfl
    rw [queue_rq_go, if_neg (by omega)]
  | b :: rest, pos, s, hwf, hgd, hbound, hcap, halloc, q => by
    obtain ⟨hb0, hcross, hwfr⟩ := wellFormedB_cons pos b rest hwf
    obtain ⟨hdl, hgdr⟩ := goodData_cons b rest hgd
    have htot := totalLen_cons b rest
    have hposU : pos < U32 := by omega
    have hpos_mod : (pos + b.bv_offset) % U32 = pos := by
      rw [hb0, Nat.add_zero, Nat.mod_eq_of_lt hposU]
    have hlen_mod : (pos + b.bv_len) % U32 = pos + b.bv_len :=
      Nat.mod_eq_of_lt (by omega)
    have hboundr : (pos + b.bv_len) + totalLen rest ≤ cap * PAGE_SIZE := by omega
    have hps : (0 : Nat) < PAGE_SIZE := by norm_num [PAGE_SIZE]
    have e4096 : PAGE_SIZE = 4096 := rfl
    rcases Nat.lt_or_ge (pos / PAGE_SIZE) cap with hq | hq
    · -- the segment's page is inside the table
      cases hpg : s.pages (pos / PAGE_SIZE) with
      | some pg =>
        have hgp : ramjam_get_page cap allocOk s (pos / PAGE_SIZE) true = (s, some pg) :=
          get_page_some cap allocOk s _ _ pg hq hpg
        have hmid : ∀ r, deviceByte
            (setPage s (pos / PAGE_SIZE) (memcpyIn pg (pos % PAGE_SIZE) b.data)) r
            = if pos ≤ r ∧ r < pos + b.bv_len
              then b.data.getD (r - pos) 0 else deviceByte s r := by
          intro r
          rw [deviceByte_setPage]
          by_cases hr : r / PAGE_SIZE = pos / PAGE_SIZE
          · rw [if_pos hr]
            show (if pos % PAGE_SIZE ≤ r % PAGE_SIZE
                  ∧ r % PAGE_SIZE < pos % PAGE_SIZE + b.data.length
                then b.data.getD (r % PAGE_SIZE - pos % PAGE_SIZE) 0
                else pg (r % PAGE_SIZE)) = _
            by_cases hin : pos ≤ r ∧ r < pos + b.bv_len
            · have hcond : pos % PAGE_SIZE ≤ r % PAGE_SIZE
                  ∧ r % PAGE_SIZE < pos % PAGE_SIZE + b.data.length := by
                rw [hdl]
                rw [e4096] at hcross hr ⊢
                omega
              rw [if_pos hcond, if_pos hin]
              congr 1
              rw [e4096] at hcross hr ⊢
              omega
            · have hcond : ¬ (pos % PAGE_SIZE ≤ r % PAGE_SIZE
                  ∧ r % PAGE_SIZE < pos % PAGE_SIZE + b.data.length) := by
                rw [hdl]
                rw [e4096] at hcross hr ⊢
                omega
              rw [if_neg hcond, if_neg hin]
              simp [deviceByte, hr, hpg]
          · rw [if_neg hr]
            have hnot : ¬ (pos ≤ r ∧ r < pos + b.bv_len) := by
              rintro ⟨h1, h2⟩
              apply hr
              have hfit : pos % PAGE_SIZE + (r - pos) < PAGE_SIZE := by omega
              have hdiv := addr_div_eq pos (r - pos) hfit
              rw [Nat.add_sub_cancel' h1] at hdiv
              exact hdiv
            rw [if_neg hnot]
        have hgo : (queue_rq_go cap allocOk Dir.write pos (b :: rest) s).1
            = (queue_rq_go cap allocOk Dir.write (pos + b.bv_len) rest
                (setPage s (pos / PAGE_SIZE) (memcpyIn pg (pos % PAGE_SIZE) b.data))).1 := by
          simp [queue_rq_go, isWrite, hpos_mod, shiftRight_PAGE, hgp, hlen_mod]
        have ih := queue_rq_go_write_deviceByte cap allocOk rest (pos + b.bv_len)
          (setPage s (pos / PAGE_SIZE) (memcpyIn pg (pos % PAGE_SIZE) b.data))
          hwfr hgdr hboundr hcap halloc q
        rw [hgo, ih]
        by_cases h1 : pos + b.bv_len ≤ q ∧ q < pos + b.bv_len + totalLen rest
        · rw [if_pos h1, if_pos (show pos ≤ q ∧ q < pos + totalLen (b :: rest) by omega)]
          rw [writtenBytes_cons,
            List.getD_append_right b.data (writtenBytes rest) 0 (q - pos) (by omega)]
          congr 1
          omega
        · rw [if_neg h1, hmid q]
          by_cases h2 : pos ≤ q ∧ q < pos + b.bv_len
          · rw [if_pos h2, if_pos (show pos ≤ q ∧ q < pos + totalLen (b :: rest) by omega)]
            rw [writtenBytes_cons,
              List.getD_append b.data (writtenBytes rest) 0 (q - pos) (by omega)]
          · rw [if_neg h2,
              if_neg (show ¬ (pos ≤ q ∧ q < pos + totalLen (b :: rest)) by omega)]
      | none =>
        have hok : allocOk (pos / PAGE_SIZE) = true := halloc _ hq
        have hgp : ramjam_get_page cap allocOk s (pos / PAGE_SIZE) true
            = (setPage s (pos / PAGE_SIZE) zeroPage, some zeroPage) :=
          get_page_alloc cap allocOk s _ hq hpg hok
        have hmid : ∀ r, deviceByte
            (setPage (setPage s (pos / PAGE_SIZE) zeroPage) (pos / PAGE_SIZE)
              (memcpyIn zeroPage (pos % PAGE_SIZE) b.data)) r
            = if pos ≤ r ∧ r < pos + b.bv_len
              then b.data.getD (r - pos) 0 else deviceByte s r := by
          intro r
          rw [deviceByte_setPage]
          by_cases hr : r / PAGE_SIZE = pos / PAGE_SIZE
          · rw [if_pos hr]
            show (if pos % PAGE_SIZE ≤ r % PAGE_SIZE
                  ∧ r % PAGE_SIZE < pos % PAGE_SIZE + b.data.length
                then b.data.getD (r % PAGE_SIZE - pos % PAGE_SIZE) 0
                else zeroPage (r % PAGE_SIZE)) = _
            by_cases hin : pos ≤ r ∧ r < pos + b.bv_len
            · have hcond : pos % PAGE_SIZE ≤ r % PAGE_SIZE
                  ∧ r % PAGE_SIZE < pos % PAGE_SIZE + b.data.length := by
                rw [hdl]
                rw [e4096] at hcross hr ⊢
                omega
              rw [if_pos hcond, if_pos hin]
              congr 1
              rw [e4096] at hcross hr ⊢
              omega
            · have hcond : ¬ (pos % PAGE_SIZE ≤ r % PAGE_SIZE
                  ∧ r % PAGE_SIZE < pos % PAGE_SIZE + b.data.length) := by
                rw [hdl]
                rw [e4096] at hcross hr ⊢
                omega
              rw [if_neg hcond, if_neg hin]
              simp [deviceByte, zeroPage, hr, hpg]
          · rw [if_neg hr, deviceByte_setPage, if_neg hr]
            have hnot : ¬ (pos ≤ r ∧ r < pos + b.bv_len) := by
              rintro ⟨h1, h2⟩
              apply hr
              have hfit : pos % PAGE_SIZE + (r - pos) < PAGE_SIZE := by omega
              have hdiv := addr_div_eq pos (r - pos) hfit
              rw [Nat.add_sub_cancel' h1] at hdiv
              exact hdiv
            rw [if_neg hnot]
        have hgo : (queue_rq_go cap allocOk Dir.write pos (b :: rest) s).1
            = (queue_rq_go cap allocOk Dir.write (pos + b.bv_len) rest
                (setPage (setPage s (pos / PAGE_SIZE) zeroPage) (pos / PAGE_SIZE)
                  (memcpyIn zeroPage (pos % PAGE_SIZE) b.data))).1 := by
          simp [queue_rq_go, isWrite, hpos_mod, shiftRight_PAGE, hgp, hlen_mod]
        have ih := queue_rq_go_write_deviceByte cap allocOk rest (pos + b.bv_len)
          (setPage (setPage s (pos / PAGE_SIZE) zeroPage) (pos / PAGE_SIZE)
            (memcpyIn zeroPage (pos % PAGE_SIZE) b.data))
          hwfr hgdr hboundr hcap halloc q
        rw [hgo, ih]
        by_cases h1 : pos + b.bv_len ≤ q ∧ q < pos + b.bv_len + totalLen rest
        · rw [if_pos h1, if_pos (show pos ≤ q ∧ q < pos + totalLen (b :: rest) by omega)]
          rw [writtenBytes_cons,
            List.getD_append_right b.data (writtenBytes rest) 0 (q - pos) (by omega)]
          congr 1
          omega
        · rw [if_neg h1, hmid q]
          by_cases h2 : pos ≤ q ∧ q < pos + b.bv_len
          · rw [if_pos h2, if_pos (show pos ≤ q ∧ q < pos + totalLen (b :: rest) by omega)]
            rw [writtenBytes_cons,
              List.getD_append b.data (writtenBytes rest) 0 (q - pos) (by omega)]
          · rw [if_neg h2,
              if_neg (show ¬ (pos ≤ q ∧ q < pos + totalLen (b :: rest)) by omega)]
    · -- degenerate tail exactly at the capacity boundary
      have hple : cap * PAGE_SIZE ≤ pos := by
        have h := (Nat.le_div_iff_mul_le hps).mp hq
        omega
      have hb_len : b.bv_len = 0 := by omega
      have htotr : totalLen rest = 0 := by omega
      have hgp : ramjam_get_page cap allocOk s (pos / PAGE_SIZE) true = (s, none) :=
        get_page_oob cap allocOk s _ _ hq
      have ih := queue_rq_go_write_deviceByte cap allocOk rest (pos + b.bv_len) s
        hwfr hgdr hboundr hcap halloc q
      have hgo : (queue_rq_go cap allocOk Dir.write pos (b :: rest) s).1
          = (queue_rq_go cap allocOk Dir.write (pos + b.bv_len) rest s).1 := by
        simp [queue_rq_go, isWrite, hpos_mod, shiftRight_PAGE, hgp, hlen_mod]
      rw [hgo, ih, if_neg (by omega), if_neg (by omega)]

/-! ## Round trip through the block front-end -/

set_option maxRecDepth 10000 in
/-- C1 counterexample — the round trip fails for a valid in-range
request when the write is split into segments with nonzero buffer
offsets: with 4 pages, writing 1024 bytes at byte offset 0 as two
512-byte segments whose buffers sit at offset 3584 of their pages
(values 170 then 187), then reading back `[0,1024)` as one segment,
yields 0 at output byte 512 where the written byte was 187 — the
code's `(pos + bvec.bv_offset) >> PAGE_SHIFT` page-index formula sent
the second segment's bytes to page 1 instead of page 0. -/
theorem C1_counterexample :
    totalLen [(⟨3584, 512, List.replicate 512 170⟩ : Bvec),
        ⟨3584, 512, List.replicate 512 187⟩] ≤ 4 * PAGE_SIZE
    ∧ (writtenBytes [(⟨3584, 512, List.replicate 512 170⟩ : Bvec),
        ⟨3584, 512, List.replicate 512 187⟩]).getD 512 1 = 187
    ∧ ((ramjam_queue_rq 4 allocAll Dir.read 0 [⟨0, 1024, []⟩]
        (ramjam_queue_rq 4 allocAll Dir.write 0
          [⟨3584, 512, List.replicate 512 170⟩, ⟨3584, 512, List.replicate 512 187⟩]
          initState).1).2.1).flatten.getD 512 1 = 0
    ∧ (0 : Nat) ≠ 187 := by
  refine ⟨by decide, rfl, rfl, by decide⟩

/-- C1 amended — round trip holds for canonical requests: if both the
write and the read are composed of segments with buffer offset 0, no
segment crossing a page boundary, the range is valid
(`offset + length ≤ capacity_bytes`) and every allocation succeeds,
then writing bytes `B` at a sector and reading the same range back
(with any canonical resegmentation) returns exactly `B`, including
ranges spanning multiple pages and multi-segment requests.  (The
unamended claim fails for segments with nonzero buffer offsets, see
the counterexample.) -/
theorem C1_roundtrip_canonical (cap : Nat) (allocOk : Nat → Bool) (sector : Nat)
    (wsegs rsegs : List Bvec) (s : RamjamState)
    (hw : wellFormedB (sector * 512) wsegs = true)
    (hd : goodData wsegs = true)
    (hr : wellFormedB (sector * 512) rsegs = true)
    (hlen : totalLen rsegs = totalLen wsegs)
    (hbound : sector * 512 + totalLen wsegs ≤ cap * PAGE_SIZE)
    (hcap : cap * PAGE_SIZE < U32)
    (halloc : ∀ p, p < cap → allocOk p = true) :
    ((ramjam_queue_rq cap allocOk Dir.read sector rsegs
        (ramjam_queue_rq cap allocOk Dir.write sector wsegs s).1).2.1).flatten
      = writtenBytes wsegs := by
  have hsec : (sector <<< SECTOR_SHIFT) % U32 = sector * 512 := by
    rw [shiftLeft_SECTOR]
    exact Nat.mod_eq_of_lt (by omega)
  set s2 := (ramjam_queue_rq cap allocOk Dir.write sector wsegs s).1 with hs2
  have hs2go : s2 = (queue_rq_go cap allocOk Dir.write (sector * 512) wsegs s).1 := by
    rw [hs2]
    simp [ramjam_queue_rq, hsec]
  have hwrite := queue_rq_go_write_deviceByte cap allocOk wsegs (sector * 512) s
    hw hd hbound hcap halloc
  have hread := queue_rq_go_read_canonical cap allocOk rsegs (sector * 512) s2 hr
    (by omega) hcap
  have hout : (ramjam_queue_rq cap allocOk Dir.read sector rsegs s2).2.1
      = expectedReads s2 (sector * 512) rsegs := by
    simp [ramjam_queue_rq, hsec, hread]
  rw [hout, expectedReads_flatten, hlen]
  have hlenW : (writtenBytes wsegs).length = totalLen wsegs := writtenBytes_length wsegs hd
  conv_rhs => rw [← map_getD_range (writtenBytes wsegs)]
  rw [hlenW]
  apply List.map_congr_left
  intro i hi
  have hi' : i < totalLen wsegs := List.mem_range.mp hi
  rw [hs2go, hwrite (sector * 512 + i), if_pos (by omega)]
  congr 1
  omega

/-- Witness for C1 amended at a concrete instance: write `[5, 6]` at
sector 0 and read it back in two 1-byte segments. -/
theorem C1_roundtrip_canonical_witness :
    wellFormedB (0 * 512) [(⟨0, 2, [5, 6]⟩ : Bvec)] = true
    ∧ goodData [(⟨0, 2, [5, 6]⟩ : Bvec)] = true
    ∧ wellFormedB (0 * 512) [(⟨0, 1, []⟩ : Bvec), ⟨0, 1, []⟩] = true
    ∧ ((ramjam_queue_rq 1 allocAll Dir.read 0 [⟨0, 1, []⟩, ⟨0, 1, []⟩]
        (ramjam_queue_rq 1 allocAll Dir.write 0 [⟨0, 2, [5, 6]⟩] initState).1).2.1).flatten
      = writtenBytes [⟨0, 2, [5, 6]⟩] :=
  ⟨by decide, by decide, by decide,
    C1_roundtrip_canonical 1 allocAll 0 [⟨0, 2, [5, 6]⟩] [⟨0, 1, []⟩, ⟨0, 1, []⟩]
      initState (by decide) (by decide) (by decide) (by decide) (by decide) (by decide)
      (fun _ _ => rfl)⟩

/-! ## Cross-endpoint consistency -/

theorem page_addr_div (p i : Nat) (h : i < PAGE_SIZE) :
    (p * PAGE_SIZE + i) / PAGE_SIZE = p := by
  have e : PAGE_SIZE = 4096 := rfl
  rw [e] at h ⊢
  omega

theorem page_addr_mod (p i : Nat) (h : i < PAGE_SIZE) :
    (p * PAGE_SIZE + i) % PAGE_SIZE = i := by
  have e : PAGE_SIZE = 4096 := rfl
  rw [e] at h ⊢
  omega

theorem getD_map_range (n k : Nat) (f : Nat → Byte) (h : k < n) :
    ((List.range n).map f).getD k 0 = f k := by
  rw [List.getD_eq_getElem?_getD, List.getElem?_map, List.getElem?_range h]
  rfl

/-- A fault on an in-range page with a working allocator maps a unit
whose in-page bytes are exactly the device content of that page. -/
theorem vma_fault_mapped_byte (cap : Nat) (allocOk : Nat → Bool) (t : RamjamState)
    (p : Nat) (hp : p < cap) (hok : allocOk p = true) :
    ∃ pg, (ramjam_vma_fault cap allocOk t p).2 = VmFaultResult.mapped pg
      ∧ ∀ i, i < PAGE_SIZE → pg i = deviceByte t (p * PAGE_SIZE + i) := by
  cases hpg : t.pages p with
  | some pg =>
    refine ⟨pg, ?_, ?_⟩
    · simp [ramjam_vma_fault, get_page_some cap allocOk t p true pg hp hpg]
    · intro i hi
      simp [deviceByte, page_addr_div p i hi, page_addr_mod p i hi, hpg]
  | none =>
    refine ⟨zeroPage, ?_, ?_⟩
    · simp [ramjam_vma_fault, get_page_alloc cap allocOk t p hp hpg hok]
    · intro i hi
      simp [deviceByte, zeroPage, page_addr_div p i hi, hpg]

/-- C4 — Cross-endpoint consistency: both endpoints resolve to the
same page table.  First direction: after a canonical block-endpoint
write, a mapping-endpoint fault on the page containing any written
byte offset `o` maps a unit whose byte at `o % PAGE_SIZE` is exactly
the byte the block endpoint wrote at `o`.  Second direction: writing a
byte `v` through an established mapping (mutating the faulted page's
unit at in-page index `j`) makes a subsequent block-endpoint read of
the range containing that byte return `v`. -/
theorem C4_cross_endpoint (cap : Nat) (allocOk : Nat → Bool)
    (hcap : cap * PAGE_SIZE < U32)
    (halloc : ∀ p, p < cap → allocOk p = true) :
    (∀ (sector : Nat) (wsegs : List Bvec) (s : RamjamState) (o : Nat),
      wellFormedB (sector * 512) wsegs = true → goodData wsegs = true →
      sector * 512 + totalLen wsegs ≤ cap * PAGE_SIZE →
      sector * 512 ≤ o → o < sector * 512 + totalLen wsegs →
      ∃ pg, (ramjam_vma_fault cap allocOk
              (ramjam_queue_rq cap allocOk Dir.write sector wsegs s).1
              (o / PAGE_SIZE)).2
          = VmFaultResult.mapped pg
        ∧ pg (o % PAGE_SIZE) = (writtenBytes wsegs).getD (o - sector * 512) 0)
    ∧ (∀ (t : RamjamState) (p j : Nat) (v : Byte) (pg : PageData),
      p < cap → j < PAGE_SIZE →
      (ramjam_vma_fault cap allocOk t p).2 = VmFaultResult.mapped pg →
      ((ramjam_queue_rq cap allocOk Dir.read (p * 8 + j / 512)
          [⟨0, j % 512 + 1, []⟩]
          (setPage (ramjam_vma_fault cap allocOk t p).1 p
            (fun i => if i = j then v else pg i))).2.1).flatten.getD (j % 512) 0
        = v) := by
  have e4096 : PAGE_SIZE = 4096 := rfl
  have eU32 : U32 = 4294967296 := by norm_num [U32]
  constructor
  · intro sector wsegs s o hw hd hbound h1 h2
    have hps : (0 : Nat) < PAGE_SIZE := by norm_num [PAGE_SIZE]
    have hp : o / PAGE_SIZE < cap := by
      rw [e4096] at hbound ⊢
      omega
    obtain ⟨pg, hm, hb⟩ := vma_fault_mapped_byte cap allocOk
      (ramjam_queue_rq cap allocOk Dir.write sector wsegs s).1 (o / PAGE_SIZE)
      hp (halloc _ hp)
    refine ⟨pg, hm, ?_⟩
    have hmod : o % PAGE_SIZE < PAGE_SIZE := Nat.mod_lt o hps
    rw [hb (o % PAGE_SIZE) hmod]
    have ho : o / PAGE_SIZE * PAGE_SIZE + o % PAGE_SIZE = o := by
      rw [e4096]
      omega
    rw [ho]
    have hsec : (sector <<< SECTOR_SHIFT) % U32 = sector * 512 := by
      rw [shiftLeft_SECTOR]
      exact Nat.mod_eq_of_lt (by omega)
    have hwrite := queue_rq_go_write_deviceByte cap allocOk wsegs (sector * 512) s
      hw hd hbound hcap halloc o
    have hs2go : (ramjam_queue_rq cap allocOk Dir.write sector wsegs s).1
        = (queue_rq_go cap allocOk Dir.write (sector * 512) wsegs s).1 := by
      simp [ramjam_queue_rq, hsec]
    rw [hs2go, hwrite, if_pos (by omega)]
  · intro t p j v pg hp hj hm
    set t2 := setPage (ramjam_vma_fault cap allocOk t p).1 p
      (fun i => if i = j then v else pg i) with ht2
    have hsec : ((p * 8 + j / 512) <<< SECTOR_SHIFT) % U32 = (p * 8 + j / 512) * 512 := by
      rw [shiftLeft_SECTOR]
      apply Nat.mod_eq_of_lt
      rw [e4096] at hcap
      rw [eU32] at hcap ⊢
      omega
    have hpos : (p * 8 + j / 512) * 512 = p * PAGE_SIZE + j / 512 * 512 := by
      rw [e4096]
      omega
    have hwf : wellFormedB ((p * 8 + j / 512) * 512) [⟨0, j % 512 + 1, []⟩] = true := by
      simp [wellFormedB, totalLen]
      rw [hpos, e4096] at *
      omega
    have hbound : (p * 8 + j / 512) * 512 + totalLen [(⟨0, j % 512 + 1, []⟩ : Bvec)]
        ≤ cap * PAGE_SIZE := by
      simp [totalLen]
      rw [hpos, e4096] at *
      omega
    have hread := queue_rq_go_read_canonical cap allocOk [⟨0, j % 512 + 1, []⟩]
      ((p * 8 + j / 512) * 512) t2 hwf hbound hcap
    have hout : (ramjam_queue_rq cap allocOk Dir.read (p * 8 + j / 512)
        [⟨0, j % 512 + 1, []⟩] t2).2.1
        = expectedReads t2 ((p * 8 + j / 512) * 512) [⟨0, j % 512 + 1, []⟩] := by
      simp [ramjam_queue_rq, hsec, hread]
    rw [hout, expectedReads_flatten, totalLen]
    rw [getD_map_range _ _ _ (by simp)]
    have haddr : (p * 8 + j / 512) * 512 + j % 512 = p * PAGE_SIZE + j := by
      rw [e4096]
      omega
    rw [haddr, ht2, deviceByte_setPage,
      if_pos (page_addr_div p j hj), page_addr_mod p j hj, if_pos rfl]

/-- Witness for C4 at a concrete instance. -/
theorem C4_cross_endpoint_witness :
    (∃ pg, (ramjam_vma_fault 4 allocAll
            (ramjam_queue_rq 4 allocAll Dir.write 0 [⟨0, 2, [9, 8]⟩] initState).1
            (1 / PAGE_SIZE)).2
        = VmFaultResult.mapped pg
      ∧ pg (1 % PAGE_SIZE) = (writtenBytes [⟨0, 2, [9, 8]⟩]).getD (1 - 0 * 512) 0)
    ∧ ∀ pg, (ramjam_vma_fault 4 allocAll initState 2).2 = VmFaultResult.mapped pg →
      ((ramjam_queue_rq 4 allocAll Dir.read (2 * 8 + 5 / 512)
          [⟨0, 5 % 512 + 1, []⟩]
          (setPage (ramjam_vma_fault 4 allocAll initState 2).1 2
            (fun i => if i = 5 then 77 else pg i))).2.1).flatten.getD (5 % 512) 0
        = 77 :=
  ⟨(C4_cross_endpoint 4 allocAll (by decide) (fun _ _ => rfl)).1
      0 [⟨0, 2, [9, 8]⟩] initState 1 (by decide) (by decide) (by decide)
      (by decide) (by decide),
   fun pg hm => (C4_cross_endpoint 4 allocAll (by decide) (fun _ _ => rfl)).2
      initState 2 5 77 pg (by decide) (by decide) hm⟩

/-! ## Allocation monotonicity across whole-lifetime operation sequences -/

theorem setPage_isSome (s : RamjamState) (p0 : Nat) (pg : PageData) (p : Nat)
    (h : (s.pages p).isSome = true) :
    ((setPage s p0 pg).pages p).isSome = true := by
  by_cases he : p = p0 <;> simp [setPage, he, h]

theorem get_page_state_cases (cap : Nat) (allocOk : Nat → Bool) (s : RamjamState)
    (pgoff : Nat) (al : Bool) :
    (ramjam_get_page cap allocOk s pgoff al).1 = s
    ∨ (pgoff < cap
        ∧ (ramjam_get_page cap allocOk s pgoff al).1 = setPage s pgoff zeroPage) := by
  by_cases h1 : pgoff ≥ cap
  · rw [get_page_oob cap allocOk s pgoff al h1]
    exact Or.inl rfl
  · have hlt : pgoff < cap := Nat.not_le.mp h1
    cases hpg : s.pages pgoff with
    | some pg => rw [get_page_some cap allocOk s pgoff al pg hlt hpg]; exact Or.inl rfl
    | none =>
      cases al with
      | false => rw [get_page_read]; exact Or.inl rfl
      | true =>
        cases hok : allocOk pgoff with
        | false => rw [get_page_alloc_fail cap allocOk s pgoff hpg hok]; exact Or.inl rfl
        | true =>
          rw [get_page_alloc cap allocOk s pgoff hlt hpg hok]
          exact Or.inr ⟨hlt, rfl⟩

theorem get_page_mono (cap : Nat) (allocOk : Nat → Bool) (s : RamjamState)
    (pgoff : Nat) (al : Bool) (p : Nat) (h : (s.pages p).isSome = true) :
    (((ramjam_get_page cap allocOk s pgoff al).1).pages p).isSome = true := by
  rcases get_page_state_cases cap allocOk s pgoff al with hc | ⟨_, hc⟩
  · rw [hc]; exact h
  · rw [hc]; exact setPage_isSome s pgoff zeroPage p h

theorem queue_rq_go_mono (cap : Nat) (allocOk : Nat → Bool) (dir : Dir) :
    ∀ (segs : List Bvec) (pos : Nat) (s : RamjamState) (p : Nat),
      (s.pages p).isSome = true →
      (((queue_rq_go cap allocOk dir pos segs s).1).pages p).isSome = true
  | [], _, _, _, h => h
  | b :: rest, pos, s, p, h => by
    rcases hres : ramjam_get_page cap allocOk s
        (((pos + b.bv_offset) % U32) >>> PAGE_SHIFT) (isWrite dir) with ⟨s1, page?⟩
    have hs1 : (s1.pages p).isSome = true := by
      have hm := get_page_mono cap allocOk s
        (((pos + b.bv_offset) % U32) >>> PAGE_SHIFT) (isWrite dir) p h
      rw [hres] at hm
      exact hm
    cases page? with
    | none =>
      cases dir <;> simp [queue_rq_go, hres] <;>
        exact queue_rq_go_mono cap allocOk _ rest _ _ p hs1
    | some pg =>
      cases dir with
      | read =>
        simp [queue_rq_go, hres]
        exact queue_rq_go_mono cap allocOk _ rest _ _ p hs1
      | write =>
        simp [queue_rq_go, hres]
        exact queue_rq_go_mono cap allocOk _ rest _ _ p
          (setPage_isSome s1 _ _ p hs1)

theorem submit_bio_go_mono (cap : Nat) (allocOk : Nat → Bool) (dir : Dir) :
    ∀ (segs : List Bvec) (sector : Nat) (s : RamjamState) (p : Nat),
      (s.pages p).isSome = true →
      (((submit_bio_go cap allocOk dir sector segs s).1).pages p).isSome = true
  | [], _, _, _, h => h
  | b :: rest, sector, s, p, h => by
    by_cases hc : (((sector <<< SECTOR_SHIFT) % U64) >>> PAGE_SHIFT) % U32 < cap
    · cases hpg : s.pages ((((sector <<< SECTOR_SHIFT) % U64) >>> PAGE_SHIFT) % U32) with
      | some pg =>
        cases dir with
        | read =>
          simp [submit_bio_go, hc, hpg]
          exact submit_bio_go_mono cap allocOk _ rest _ _ p h
        | write =>
          simp [submit_bio_go, hc, hpg]
          exact submit_bio_go_mono cap allocOk _ rest _ _ p (setPage_isSome s _ _ p h)
      | none =>
        cases dir with
        | read =>
          simp [submit_bio_go, hc, hpg]
          exact submit_bio_go_mono cap allocOk _ rest _ _ p h
        | write =>
          cases hok : allocOk ((((sector <<< SECTOR_SHIFT) % U64) >>> PAGE_SHIFT) % U32) with
          | true =>
            simp [submit_bio_go, hc, hpg, hok]
            exact submit_bio_go_mono cap allocOk _ rest _ _ p (setPage_isSome s _ _ p h)
          | false =>
            simp [submit_bio_go, hc, hpg, hok]
            exact submit_bio_go_mono cap allocOk _ rest _ _ p h
    · cases dir <;> simp [submit_bio_go, hc] <;>
        exact submit_bio_go_mono cap allocOk _ rest _ _ p h

theorem vma_fault_mono (cap : Nat) (allocOk : Nat → Bool) (s : RamjamState)
    (pgoff p : Nat) (h : (s.pages p).isSome = true) :
    (((ramjam_vma_fault cap allocOk s pgoff).1).pages p).isSome = true := by
  have hm := get_page_mono cap allocOk s pgoff true p h
  rcases hres : ramjam_get_page cap allocOk s pgoff true with ⟨s1, page?⟩
  rw [hres] at hm
  cases page? <;> simp [ramjam_vma_fault, hres] <;> exact hm

theorem vm_fault_mono (cap : Nat) (allocOk : Nat → Bool) (s : RamjamState)
    (pgoff p : Nat) (h : (s.pages p).isSome = true) :
    (((ramjam_vm_fault cap allocOk s pgoff).1).pages p).isSome = true := by
  by_cases hc : pgoff % U32 ≥ cap
  · simp [ramjam_vm_fault, hc, h]
  · cases hpg : s.pages (pgoff % U32) with
    | some pg => simp [ramjam_vm_fault, hc, hpg, h]
    | none =>
      cases hok : allocOk (pgoff % U32) with
      | true =>
        simp [ramjam_vm_fault, hc, hpg, hok]
        exact setPage_isSome s _ _ p h
      | false => simp [ramjam_vm_fault, hc, hpg, hok, h]

theorem stepOp_mono (cap : Nat) (allocOk : Nat → Bool) (s : RamjamState) (op : Op)
    (p : Nat) (h : (s.pages p).isSome = true) :
    (((stepOp cap allocOk s op).pages p)).isSome = true := by
  cases op with
  | queueRq d sec segs => exact queue_rq_go_mono cap allocOk d segs _ s p h
  | submitBio d sec segs => exact submit_bio_go_mono cap allocOk d segs _ s p h
  | vmaFault q => exact vma_fault_mono cap allocOk s q p h
  | vmFault q => exact vm_fault_mono cap allocOk s q p h

theorem runOps_mono (cap : Nat) (allocOk : Nat → Bool) :
    ∀ (ops : List Op) (s : RamjamState) (p : Nat),
      (s.pages p).isSome = true →
      (((runOps cap allocOk ops s).pages p)).isSome = true
  | [], _, _, h => h
  | op :: rest, s, p, h =>
    runOps_mono cap allocOk rest _ p (stepOp_mono cap allocOk s op p h)

theorem countAllocated_le_cap (cap : Nat) (s : RamjamState) :
    countAllocated cap s ≤ cap := by
  calc countAllocated cap s
      ≤ (List.range cap).length := List.length_filter_le _ _
    _ = cap := List.length_range cap

theorem countAllocated_mono (cap : Nat) (s t : RamjamState)
    (h : ∀ p, (s.pages p).isSome = true → (t.pages p).isSome = true) :
    countAllocated cap s ≤ countAllocated cap t := by
  unfold countAllocated
  rw [← List.countP_eq_length_filter, ← List.countP_eq_length_filter]
  exact List.countP_mono_left fun p _ hp => h p hp

/-- C8 — Allocation-state invariant: across any sequence of block
transfers (either front-end) and mapping faults, the count of
allocated page-table entries never decreases and never exceeds
`capacity_pages`, and every allocated entry stays allocated (an entry
goes `Unallocated → Allocated` at most once and never back). -/
theorem C8_alloc_invariant (cap : Nat) (allocOk : Nat → Bool) (ops : List Op)
    (s : RamjamState) :
    countAllocated cap s ≤ countAllocated cap (runOps cap allocOk ops s)
    ∧ countAllocated cap (runOps cap allocOk ops s) ≤ cap
    ∧ ∀ p, (s.pages p).isSome = true →
        ((runOps cap allocOk ops s).pages p).isSome = true := by
  refine ⟨?_, countAllocated_le_cap cap _, fun p h => runOps_mono cap allocOk ops s p h⟩
  exact countAllocated_mono cap s _ fun p h => runOps_mono cap allocOk ops s p h

/-- Witness for C8 at a concrete instance. -/
theorem C8_alloc_invariant_witness :
    (((setPage initState 0 zeroPage).pages 0).isSome = true)
    ∧ ((runOps 4 allocAll [Op.vmaFault 1, Op.queueRq Dir.write 0 [⟨0, 1, [7]⟩]]
        (setPage initState 0 zeroPage)).pages 0).isSome = true :=
  ⟨rfl,
    (C8_alloc_invariant 4 allocAll [Op.vmaFault 1, Op.queueRq Dir.write 0 [⟨0, 1, [7]⟩]]
      (setPage initState 0 zeroPage)).2.2 0 rfl⟩

/-! ## Every table access is bounds-checked: frame and agreement -/

theorem setPage_agree (cap : Nat) (s t : RamjamState) (p0 : Nat) (pg : PageData)
    (h : AgreeBelow cap s t) :
    AgreeBelow cap (setPage s p0 pg) (setPage t p0 pg) := by
  intro p hp
  by_cases he : p = p0 <;> simp [setPage, he, h p hp]

theorem get_page_agree (cap : Nat) (allocOk : Nat → Bool) (s t : RamjamState)
    (pgoff : Nat) (al : Bool) (h : AgreeBelow cap s t) :
    (ramjam_get_page cap allocOk s pgoff al).2
      = (ramjam_get_page cap allocOk t pgoff al).2
    ∧ AgreeBelow cap (ramjam_get_page cap allocOk s pgoff al).1
        (ramjam_get_page cap allocOk t pgoff al).1 := by
  by_cases h1 : pgoff ≥ cap
  · rw [get_page_oob cap allocOk s pgoff al h1, get_page_oob cap allocOk t pgoff al h1]
    exact ⟨rfl, h⟩
  · have hlt : pgoff < cap := Nat.not_le.mp h1
    have heq : s.pages pgoff = t.pages pgoff := h pgoff hlt
    cases hpg : t.pages pgoff with
    | some pg =>
      rw [get_page_some cap allocOk s pgoff al pg hlt (heq.trans hpg),
        get_page_some cap allocOk t pgoff al pg hlt hpg]
      exact ⟨rfl, h⟩
    | none =>
      have hs : s.pages pgoff = none := heq.trans hpg
      cases al with
      | false =>
        rw [get_page_read, get_page_read]
        simp [hs, hpg]
        exact h
      | true =>
        cases hok : allocOk pgoff with
        | true =>
          rw [get_page_alloc cap allocOk s pgoff hlt hs hok,
            get_page_alloc cap allocOk t pgoff hlt hpg hok]
          exact ⟨rfl, setPage_agree cap s t pgoff zeroPage h⟩
        | false =>
          rw [get_page_alloc_fail cap allocOk s pgoff hs hok,
            get_page_alloc_fail cap allocOk t pgoff hpg hok]
          exact ⟨rfl, h⟩

theorem get_page_preserve_oob (cap : Nat) (allocOk : Nat → Bool) (s : RamjamState)
    (pgoff : Nat) (al : Bool) (p : Nat) (hp : cap ≤ p) :
    ((ramjam_get_page cap allocOk s pgoff al).1).pages p = s.pages p := by
  rcases get_page_state_cases cap allocOk s pgoff al with hc | ⟨hlt, hc⟩
  · rw [hc]
  · rw [hc]
    have hne : p ≠ pgoff := by omega
    simp [setPage, hne]

theorem get_page_some_lt (cap : Nat) (allocOk : Nat → Bool) (s : RamjamState)
    (pgoff : Nat) (al : Bool) (pg : PageData)
    (h : (ramjam_get_page cap allocOk s pgoff al).2 = some pg) : pgoff < cap := by
  by_contra hc
  rw [get_page_oob cap allocOk s pgoff al (Nat.not_lt.mp hc)] at h
  cases h

theorem queue_rq_go_agree (cap : Nat) (allocOk : Nat → Bool) (dir : Dir) :
    ∀ (segs : List Bvec) (pos : Nat) (s t : RamjamState),
      AgreeBelow cap s t →
      (queue_rq_go cap allocOk dir pos segs s).2
        = (queue_rq_go cap allocOk dir pos segs t).2
      ∧ AgreeBelow cap (queue_rq_go cap allocOk dir pos segs s).1
          (queue_rq_go cap allocOk dir pos segs t).1
  | [], _, _, _, h => ⟨rfl, h⟩
  | b :: rest, pos, s, t, h => by
    obtain ⟨hval, hag⟩ := get_page_agree cap allocOk s t
      (((pos + b.bv_offset) % U32) >>> PAGE_SHIFT) (isWrite dir) h
    rcases hgs : ramjam_get_page cap allocOk s
        (((pos + b.bv_offset) % U32) >>> PAGE_SHIFT) (isWrite dir) with ⟨s1, v1⟩
    rcases hgt : ramjam_get_page cap allocOk t
        (((pos + b.bv_offset) % U32) >>> PAGE_SHIFT) (isWrite dir) with ⟨t1, v2⟩
    rw [hgs, hgt] at hval hag
    simp only at hval hag
    subst hval
    cases v1 with
    | none =>
      obtain ⟨ho, ha⟩ := queue_rq_go_agree cap allocOk dir rest
        ((pos + b.bv_len) % U32) s1 t1 hag
      cases dir with
      | read =>
        constructor
        · simp [queue_rq_go, hgs, hgt, ho]
        · simp [queue_rq_go, hgs, hgt]
          exact ha
      | write =>
        constructor
        · simp [queue_rq_go, hgs, hgt, ho]
        · simp [queue_rq_go, hgs, hgt]
          exact ha
    | some pg =>
      cases dir with
      | read =>
        obtain ⟨ho, ha⟩ := queue_rq_go_agree cap allocOk Dir.read rest
          ((pos + b.bv_len) % U32) s1 t1 hag
        constructor
        · simp [queue_rq_go, hgs, hgt, ho]
        · simp [queue_rq_go, hgs, hgt]
          exact ha
      | write =>
        obtain ⟨ho, ha⟩ := queue_rq_go_agree cap allocOk Dir.write rest
          ((pos + b.bv_len) % U32)
          (setPage s1 (((pos + b.bv_offset) % U32) >>> PAGE_SHIFT)
            (memcpyIn pg (pos % PAGE_SIZE) b.data))
          (setPage t1 (((pos + b.bv_offset) % U32) >>> PAGE_SHIFT)
            (memcpyIn pg (pos % PAGE_SIZE) b.data))
          (setPage_agree cap s1 t1 _ _ hag)
        constructor
        · simp [queue_rq_go, hgs, hgt, ho]
        · simp [queue_rq_go, hgs, hgt]
          exact ha

theorem queue_rq_go_preserve_oob (cap : Nat) (allocOk : Nat → Bool) (dir : Dir) :
    ∀ (segs : List Bvec) (pos : Nat) (s : RamjamState) (p : Nat), cap ≤ p →
      ((queue_rq_go cap allocOk dir pos segs s).1).pages p = s.pages p
  | [], _, _, _, _ => rfl
  | b :: rest, pos, s, p, hp => by
    rcases hgs : ramjam_get_page cap allocOk s
        (((pos + b.bv_offset) % U32) >>> PAGE_SHIFT) (isWrite dir) with ⟨s1, v1⟩
    have hs1 : s1.pages p = s.pages p := by
      have hq := get_page_preserve_oob cap allocOk s
        (((pos + b.bv_offset) % U32) >>> PAGE_SHIFT) (isWrite dir) p hp
      rw [hgs] at hq
      exact hq
    cases v1 with
    | none =>
      cases dir with
      | read =>
        simp [queue_rq_go, hgs]
        rw [queue_rq_go_preserve_oob cap allocOk _ rest _ _ p hp, hs1]
      | write =>
        simp [queue_rq_go, hgs]
        rw [queue_rq_go_preserve_oob cap allocOk _ rest _ _ p hp, hs1]
    | some pg =>
      cases dir with
      | read =>
        simp [queue_rq_go, hgs]
        rw [queue_rq_go_preserve_oob cap allocOk _ rest _ _ p hp, hs1]
      | write =>
        have hlt : (((pos + b.bv_offset) % U32) >>> PAGE_SHIFT) < cap := by
          apply get_page_some_lt cap allocOk s
            (((pos + b.bv_offset) % U32) >>> PAGE_SHIFT) (isWrite Dir.write) pg
          rw [hgs]
        have hne : p ≠ (((pos + b.bv_offset) % U32) >>> PAGE_SHIFT) := by omega
        simp [queue_rq_go, hgs]
        rw [queue_rq_go_preserve_oob cap allocOk _ rest _ _ p hp]
        simp [setPage, hne, hs1]

theorem submit_bio_go_agree (cap : Nat) (allocOk : Nat → Bool) (dir : Dir) :
    ∀ (segs : List Bvec) (sector : Nat) (s t : RamjamState),
      AgreeBelow cap s t →
      (submit_bio_go cap allocOk dir sector segs s).2
        = (submit_bio_go cap allocOk dir sector segs t).2
      ∧ AgreeBelow cap (submit_bio_go cap allocOk dir sector segs s).1
          (submit_bio_go cap allocOk dir sector segs t).1
  | [], _, _, _, h => ⟨rfl, h⟩
  | b :: rest, sector, s, t, h => by
    by_cases hc : (((sector <<< SECTOR_SHIFT) % U64) >>> PAGE_SHIFT) % U32 < cap
    · have heq : s.pages ((((sector <<< SECTOR_SHIFT) % U64) >>> PAGE_SHIFT) % U32)
          = t.pages ((((sector <<< SECTOR_SHIFT) % U64) >>> PAGE_SHIFT) % U32) := h _ hc
      cases hpg : t.pages ((((sector <<< SECTOR_SHIFT) % U64) >>> PAGE_SHIFT) % U32) with
      | some pg =>
        have hs : s.pages ((((sector <<< SECTOR_SHIFT) % U64) >>> PAGE_SHIFT) % U32)
            = some pg := heq.trans hpg
        cases dir with
        | read =>
          obtain ⟨ho, ha⟩ := submit_bio_go_agree cap allocOk Dir.read rest
            ((sector + (b.bv_len >>> SECTOR_SHIFT)) % U64) s t h
          constructor
          · simp [submit_bio_go, hc, hs, hpg, ho]
          · simp [submit_bio_go, hc, hs, hpg]
            exact ha
        | write =>
          obtain ⟨ho, ha⟩ := submit_bio_go_agree cap allocOk Dir.write rest
            ((sector + (b.bv_len >>> SECTOR_SHIFT)) % U64)
            (setPage s ((((sector <<< SECTOR_SHIFT) % U64) >>> PAGE_SHIFT) % U32)
              (memcpyIn pg (b.bv_offset % PAGE_SIZE) b.data))
            (setPage t ((((sector <<< SECTOR_SHIFT) % U64) >>> PAGE_SHIFT) % U32)
              (memcpyIn pg (b.bv_offset % PAGE_SIZE) b.data))
            (setPage_agree cap s t _ _ h)
          constructor
          · simp [submit_bio_go, hc, hs, hpg, ho]
          · simp [submit_bio_go, hc, hs, hpg]
            exact ha
      | none =>
        have hs : s.pages ((((sector <<< SECTOR_SHIFT) % U64) >>> PAGE_SHIFT) % U32)
            = none := heq.trans hpg
        cases dir with
        | read =>
          obtain ⟨ho, ha⟩ := submit_bio_go_agree cap allocOk Dir.read rest
            ((sector + (b.bv_len >>> SECTOR_SHIFT)) % U64) s t h
          constructor
          · simp [submit_bio_go, hc, hs, hpg, ho]
          · simp [submit_bio_go, hc, hs, hpg]
            exact ha
        | write =>
          cases hok : allocOk ((((sector <<< SECTOR_SHIFT) % U64) >>> PAGE_SHIFT) % U32) with
          | true =>
            obtain ⟨ho, ha⟩ := submit_bio_go_agree cap allocOk Dir.write rest
              ((sector + (b.bv_len >>> SECTOR_SHIFT)) % U64)
              (setPage s ((((sector <<< SECTOR_SHIFT) % U64) >>> PAGE_SHIFT) % U32)
                (memcpyIn zeroPage (b.bv_offset % PAGE_SIZE) b.data))
              (setPage t ((((sector <<< SECTOR_SHIFT) % U64) >>> PAGE_SHIFT) % U32)
                (memcpyIn zeroPage (b.bv_offset % PAGE_SIZE) b.data))
              (setPage_agree cap s t _ _ h)
            constructor
            · simp [submit_bio_go, hc, hs, hpg, hok, ho]
            · simp [submit_bio_go, hc, hs, hpg, hok]
              exact ha
          | false =>
            obtain ⟨ho, ha⟩ := submit_bio_go_agree cap allocOk Dir.write rest
              ((sector + (b.bv_len >>> SECTOR_SHIFT)) % U64) s t h
            constructor
            · simp [submit_bio_go, hc, hs, hpg, hok, ho]
            · simp [submit_bio_go, hc, hs, hpg, hok]
              exact ha
    · obtain ⟨ho, ha⟩ := submit_bio_go_agree cap allocOk dir rest
        ((sector + (b.bv_len >>> SECTOR_SHIFT)) % U64) s t h
      cases dir with
      | read =>
        constructor
        · simp [submit_bio_go, hc, ho]
        · simp [submit_bio_go, hc]
          exact ha
      | write =>
        constructor
        · simp [submit_bio_go, hc, ho]
        · simp [submit_bio_go, hc]
          exact ha

theorem submit_bio_go_preserve_oob (cap : Nat) (allocOk : Nat → Bool) (dir : Dir) :
    ∀ (segs : List Bvec) (sector : Nat) (s : RamjamState) (p : Nat), cap ≤ p →
      ((submit_bio_go cap allocOk dir sector segs s).1).pages p = s.pages p
  | [], _, _, _, _ => rfl
  | b :: rest, sector, s, p, hp => by
    by_cases hc : (((sector <<< SECTOR_SHIFT) % U64) >>> PAGE_SHIFT) % U32 < cap
    · have hne : p ≠ (((sector <<< SECTOR_SHIFT) % U64) >>> PAGE_SHIFT) % U32 := by omega
      cases hpg : s.pages ((((sector <<< SECTOR_SHIFT) % U64) >>> PAGE_SHIFT) % U32) with
      | some pg =>
        cases dir with
        | read =>
          simp [submit_bio_go, hc, hpg]
          rw [submit_bio_go_preserve_oob cap allocOk _ rest _ _ p hp]
        | write =>
          simp [submit_bio_go, hc, hpg]
          rw [submit_bio_go_preserve_oob cap allocOk _ rest _ _ p hp]
          simp [setPage, hne]
      | none =>
        cases dir with
        | read =>
          simp [submit_bio_go, hc, hpg]
          rw [submit_bio_go_preserve_oob cap allocOk _ rest _ _ p hp]
        | write =>
          cases hok : allocOk ((((sector <<< SECTOR_SHIFT) % U64) >>> PAGE_SHIFT) % U32) with
          | true =>
            simp [submit_bio_go, hc, hpg, hok]
            rw [submit_bio_go_preserve_oob cap allocOk _ rest _ _ p hp]
            simp [setPage, hne]
          | false =>
            simp [submit_bio_go, hc, hpg, hok]
            rw [submit_bio_go_preserve_oob cap allocOk _ rest _ _ p hp]
    · cases dir with
      | read =>
        simp [submit_bio_go, hc]
        rw [submit_bio_go_preserve_oob cap allocOk _ rest _ _ p hp]
      | write =>
        simp [submit_bio_go, hc]
        rw [submit_bio_go_preserve_oob cap allocOk _ rest _ _ p hp]

theorem vma_fault_agree (cap : Nat) (allocOk : Nat → Bool) (s t : RamjamState)
    (pgoff : Nat) (h : AgreeBelow cap s t) :
    (ramjam_vma_fault cap allocOk s pgoff).2 = (ramjam_vma_fault cap allocOk t pgoff).2
    ∧ AgreeBelow cap (ramjam_vma_fault cap allocOk s pgoff).1
        (ramjam_vma_fault cap allocOk t pgoff).1 := by
  obtain ⟨hval, hag⟩ := get_page_agree cap allocOk s t pgoff true h
  rcases hgs : ramjam_get_page cap allocOk s pgoff true with ⟨s1, v1⟩
  rcases hgt : ramjam_get_page cap allocOk t pgoff true with ⟨t1, v2⟩
  rw [hgs, hgt] at hval hag
  simp only at hval hag
  subst hval
  cases v1 <;> simp [ramjam_vma_fault, hgs, hgt] <;> exact hag

theorem vma_fault_preserve_oob (cap : Nat) (allocOk : Nat → Bool) (s : RamjamState)
    (pgoff p : Nat) (hp : cap ≤ p) :
    ((ramjam_vma_fault cap allocOk s pgoff).1).pages p = s.pages p := by
  have hq := get_page_preserve_oob cap allocOk s pgoff true p hp
  rcases hgs : ramjam_get_page cap allocOk s pgoff true with ⟨s1, v1⟩
  rw [hgs] at hq
  cases v1 <;> simp [ramjam_vma_fault, hgs] <;> exact hq

theorem vm_fault_agree (cap : Nat) (allocOk : Nat → Bool) (s t : RamjamState)
    (pgoff : Nat) (h : AgreeBelow cap s t) :
    (ramjam_vm_fault cap allocOk s pgoff).2 = (ramjam_vm_fault cap allocOk t pgoff).2
    ∧ AgreeBelow cap (ramjam_vm_fault cap allocOk s pgoff).1
        (ramjam_vm_fault cap allocOk t pgoff).1 := by
  by_cases hc : pgoff % U32 ≥ cap
  · constructor
    · simp [ramjam_vm_fault, hc]
    · simp [ramjam_vm_fault, hc]
      exact h
  · have hlt : pgoff % U32 < cap := Nat.not_le.mp hc
    have heq : s.pages (pgoff % U32) = t.pages (pgoff % U32) := h _ hlt
    cases hpg : t.pages (pgoff % U32) with
    | some pg =>
      have hs : s.pages (pgoff % U32) = some pg := heq.trans hpg
      constructor
      · simp [ramjam_vm_fault, hc, hs, hpg]
      · simp [ramjam_vm_fault, hc, hs, hpg]
        exact h
    | none =>
      have hs : s.pages (pgoff % U32) = none := heq.trans hpg
      cases hok : allocOk (pgoff % U32) with
      | true =>
        constructor
        · simp [ramjam_vm_fault, hc, hs, hpg, hok]
        · simp [ramjam_vm_fault, hc, hs, hpg, hok]
          exact setPage_agree cap s t _ _ h
      | false =>
        constructor
        · simp [ramjam_vm_fault, hc, hs, hpg, hok]
        · simp [ramjam_vm_fault, hc, hs, hpg, hok]
          exact h

theorem vm_fault_preserve_oob (cap : Nat) (allocOk : Nat → Bool) (s : RamjamState)
    (pgoff p : Nat) (hp : cap ≤ p) :
    ((ramjam_vm_fault cap allocOk s pgoff).1).pages p = s.pages p := by
  by_cases hc : pgoff % U32 ≥ cap
  · simp [ramjam_vm_fault, hc]
  · have hlt : pgoff % U32 < cap := Nat.not_le.mp hc
    have hne : p ≠ pgoff % U32 := by omega
    cases hpg : s.pages (pgoff % U32) with
    | some pg => simp [ramjam_vm_fault, hc, hpg]
    | none =>
      cases hok : allocOk (pgoff % U32) with
      | true => simp [ramjam_vm_fault, hc, hpg, hok, setPage, hne]
      | false => simp [ramjam_vm_fault, hc, hpg, hok]

/-- C10 — every page-table access is bounds-checked.  (i)
`ramjam_get_page` returns NULL for any index `≥ capacity_pages`
without touching the state.  (ii) The bio fault handler rejects an
out-of-range (truncated) index with SIGBUS before any table access.
(iii) Results of every entry point depend only on table slots below
`capacity_pages`: two states that agree on all in-range slots produce
identical outputs/fault results and stay in agreement.  (iv) No entry
point ever writes a table slot at an index `≥ capacity_pages`. -/
theorem C10_bounds_checked (cap : Nat) (allocOk : Nat → Bool) :
    (∀ (s : RamjamState) (pgoff : Nat) (al : Bool), cap ≤ pgoff →
        ramjam_get_page cap allocOk s pgoff al = (s, none))
    ∧ (∀ (s : RamjamState) (pgoff : Nat), cap ≤ pgoff % U32 →
        ramjam_vm_fault cap allocOk s pgoff = (s, VmFaultResult.sigbus))
    ∧ (∀ (dir : Dir) (sector : Nat) (segs : List Bvec) (s t : RamjamState),
        AgreeBelow cap s t →
        (ramjam_queue_rq cap allocOk dir sector segs s).2
          = (ramjam_queue_rq cap allocOk dir sector segs t).2
        ∧ (ramjam_submit_bio cap allocOk dir sector segs s).2
          = (ramjam_submit_bio cap allocOk dir sector segs t).2
        ∧ (ramjam_vma_fault cap allocOk s sector).2
          = (ramjam_vma_fault cap allocOk t sector).2
        ∧ (ramjam_vm_fault cap allocOk s sector).2
          = (ramjam_vm_fault cap allocOk t sector).2)
    ∧ (∀ (op : Op) (s : RamjamState) (p : Nat), cap ≤ p →
        ((stepOp cap allocOk s op).pages p) = s.pages p) := by
  refine ⟨?_, ?_, ?_, ?_⟩
  · intro s pgoff al hge
    exact get_page_oob cap allocOk s pgoff al hge
  · intro s pgoff hge
    simp [ramjam_vm_fault, ge_iff_le, hge]
  · intro dir sector segs s t h
    refine ⟨?_, ?_, (vma_fault_agree cap allocOk s t sector h).1,
      (vm_fault_agree cap allocOk s t sector h).1⟩
    · have hq := queue_rq_go_agree cap allocOk dir segs
        ((sector <<< SECTOR_SHIFT) % U32) s t h
      simp [ramjam_queue_rq, hq.1]
    · exact (submit_bio_go_agree cap allocOk dir segs sector s t h).1
  · intro op s p hp
    cases op with
    | queueRq d sec segs => exact queue_rq_go_preserve_oob cap allocOk d segs _ s p hp
    | submitBio d sec segs => exact submit_bio_go_preserve_oob cap allocOk d segs _ s p hp
    | vmaFault q => exact vma_fault_preserve_oob cap allocOk s q p hp
    | vmFault q => exact vm_fault_preserve_oob cap allocOk s q p hp

/-- Witness for C10 at concrete instances. -/
theorem C10_bounds_checked_witness :
    (4 ≤ 7 ∧ ramjam_get_page 4 allocAll initState 7 true = (initState, none))
    ∧ (4 ≤ 9 % U32
        ∧ ramjam_vm_fault 4 allocAll initState 9 = (initState, VmFaultResult.sigbus))
    ∧ ((stepOp 4 allocAll initState (Op.queueRq Dir.write 0 [⟨0, 1, [3]⟩])).pages 4
        = initState.pages 4) :=
  ⟨⟨by decide, (C10_bounds_checked 4 allocAll).1 initState 7 true (by decide)⟩,
   ⟨by decide, (C10_bounds_checked 4 allocAll).2.1 initState 9 (by decide)⟩,
   (C10_bounds_checked 4 allocAll).2.2.2 (Op.queueRq Dir.write 0 [⟨0, 1, [3]⟩])
     initState 4 (by decide)⟩

end Ramjam
